import Mathlib

/-!
Verification of the safe remote append-log client of RoutineTimer
(`src/FTPClient.cpp`), against its natural-language specification.

The embedding is shallow and executable:

* Reply-parsing functions (`parsePassiveMode`, the existence prober
  `fileExists`, the final-reply handling of `createFile`) are modelled as
  pure functions of the reply strings the server sends on the control
  connection.  Arduino `String` operations (`indexOf`, `substring`,
  `startsWith`, `toInt`) are modelled over `List Char`.
* The stateful orchestrator (`uploadData`, `safeDeleteFile`) is modelled as
  a deterministic function over an explicit remote file system
  (an association list from names to contents) together with a schedule
  that fixes the outcome of every fallible network primitive
  (connect/login/cwd, each download, each store, each DELE, each rename)
  and an optional concurrent external write.  I/O-level aborts that the
  code also checks (`isConnected()` drops, the ESP32 free-heap guard) are
  not modelled: they abort an attempt exactly like the modelled session
  failures and touch no remote state.  Existence probes made by the
  orchestrator are modelled as truthful lookups in the file system;
  reply-level probe behaviour is modelled separately by `fileExists`.
-/

namespace RoutineTimer

/-! ## Arduino `String` helpers, modelled over `List Char` -/

/-- Model of Arduino `String::startsWith`: byte-prefix test. -/
def strStartsWith (s pre : String) : Bool :=
  pre.data.isPrefixOf s.data

/-- Model of `String::indexOf(substring) != -1`: substring containment. -/
def strContains (s pat : String) : Bool :=
  s.data.tails.any (fun t => pat.data.isPrefixOf t)

/-- Numeric value of a digit run, as `atol` accumulates it. -/
def digitsVal (cs : List Char) : Int :=
  cs.foldl (fun acc c => acc * 10 + (Int.ofNat (c.toNat - 48))) 0

/-- Model of Arduino `String::toInt` (C `atol`): skip leading whitespace,
optional sign, then the maximal leading digit run; no digits gives `0`. -/
def toIntArd (s : String) : Int :=
  let cs := s.data.dropWhile (fun c => c = ' ' ∨ c = '\t' ∨ c = '\n' ∨ c = '\r')
  match cs with
  | '-' :: rest => - digitsVal (rest.takeWhile Char.isDigit)
  | '+' :: rest => digitsVal (rest.takeWhile Char.isDigit)
  | _ => digitsVal (cs.takeWhile Char.isDigit)

/-- Model of `String::indexOf(c, from)`: index of the first occurrence of
`c` at or after position `start`, if any. -/
def idxOfFrom (cs : List Char) (c : Char) (start : Nat) : Option Nat :=
  match (cs.drop start).findIdx? (· = c) with
  | none => none
  | some i => some (start + i)

/-- Model of `String::substring(0, lastIndexOf('.'))` as used for the
temporary and backup name stems: the prefix before the last dot, or the
whole string when there is no dot. -/
def takeBeforeLastDot (cs : List Char) : List Char :=
  match cs.reverse.dropWhile (fun c => ¬ c = '.') with
  | [] => cs
  | _ :: rest => rest.reverse

/-- Name stem used by `uploadData` and `safeDeleteFile`. -/
def baseNameOf (s : String) : String :=
  String.mk (takeBeforeLastDot s.data)

/-! ## `FTPClient::parsePassiveMode` (FTPClient.cpp lines 53–84)

Finds the first `'('`, the first `')'` at or after it, collects the first
five comma positions of the text between them, and on exactly five commas
returns `toInt(field₅) * 256 + toInt(tail after fifth comma)`.  `none`
models `return false`. -/

def parsePassiveMode (response : String) : Option Int :=
  let cs := response.data
  match idxOfFrom cs '(' 0 with
  | none => none
  | some start =>
    match idxOfFrom cs ')' start with
    | none => none
    | some stop =>
      let dataInfo := (cs.drop (start + 1)).take (stop - (start + 1))
      let commas := ((List.range dataInfo.length).filter
        (fun i => dataInfo.getD i ' ' = ',')).take 5
      if commas.length = 5 then
        let c3 := commas.getD 3 0
        let c4 := commas.getD 4 0
        let p1 := toIntArd (String.mk ((dataInfo.drop (c3 + 1)).take (c4 - (c3 + 1))))
        let p2 := toIntArd (String.mk (dataInfo.drop (c4 + 1)))
        some (p1 * 256 + p2)
      else none

/-- The comma positions of a character list, in order — the indices the
comma-collecting loop of `parsePassiveMode` (lines 67–73) walks over. -/
def commaIdx : List Char → List Nat
  | [] => []
  | c :: cs =>
    if c = ',' then 0 :: (commaIdx cs).map (· + 1)
    else (commaIdx cs).map (· + 1)

/-- The part of `parsePassiveMode` that works on the text between the
parentheses (lines 67–79), factored out so its behaviour can be stated for
every group content. -/
def parseGroup (dataInfo : List Char) : Option Int :=
  let commas := ((List.range dataInfo.length).filter
    (fun i => dataInfo.getD i ' ' = ',')).take 5
  if commas.length = 5 then
    let c3 := commas.getD 3 0
    let c4 := commas.getD 4 0
    let p1 := toIntArd (String.mk ((dataInfo.drop (c3 + 1)).take (c4 - (c3 + 1))))
    let p2 := toIntArd (String.mk (dataInfo.drop (c4 + 1)))
    some (p1 * 256 + p2)
  else none

/-! ## `FTPClient::fileExists` (FTPClient.cpp lines 158–194)

The prober's behaviour is a pure function of the three reply strings the
server would give to `MLST`, `SIZE` and `MDTM` (an empty string models a
timed-out `readResponse`, which returns `""`).  Besides the boolean result
it reports which probe commands were actually issued. -/

/-- The three existence probe commands. -/
inductive Probe where
  | mlst
  | sizeq
  | mdtm
deriving DecidableEq, Repr

/-- `fileExists` result together with the probes issued, in order. -/
def fileExistsTrace (mlstR sizeR mdtmR : String) : Bool × List Probe :=
  if strStartsWith mlstR "250" then
    (true, [Probe.mlst])
  else if strStartsWith sizeR "213" then
    (true, [Probe.mlst, Probe.sizeq])
  else if strStartsWith sizeR "550" && strContains sizeR "not allowed" then
    (strStartsWith mdtmR "213", [Probe.mlst, Probe.sizeq, Probe.mdtm])
  else
    (false, [Probe.mlst, Probe.sizeq])

/-- The boolean the caller of `fileExists` sees. -/
def fileExists (mlstR sizeR mdtmR : String) : Bool :=
  (fileExistsTrace mlstR sizeR mdtmR).1

/-! ## Final-reply handling of `FTPClient::createFile` (lines 270–302)

After the data connection is closed the code polls for a final control
reply.  `226`/`250` is success; an empty reply (nothing arrived within the
window) makes the code "assume success" and decide by an existence probe of
the just-written file; any other reply is failure.  `probeFound` is the
result of that probe. -/

def createFileFinal (finalResponse : String) (probeFound : Bool) : Bool :=
  if strStartsWith finalResponse "226" || strStartsWith finalResponse "250" then
    true
  else if finalResponse.data.length = 0 then
    probeFound
  else
    false

/-! ## Where data connections are opened (lines 216–219, 331, 392–395)

Every data connection is opened with
`dataClient.connect(server.c_str(), dataPort)`: the host is the configured
`server` field and only the port comes from the passive reply. -/

def dataConnectTarget (server : String) (response : String) : Option (String × Int) :=
  (parsePassiveMode response).map (fun p => (server, p))

/-! ## The remote file system

The server-side state is an association list from object names to byte
contents.  Lookup takes the first matching entry; set removes any old
entry and conses the new one. -/

/-- Remote file system: names paired with contents. -/
def Fs : Type := List (String × String)

instance : DecidableEq Fs := by
  unfold Fs
  infer_instance

/-- Content at a name, if the object exists. -/
def fsGet : Fs → String → Option String
  | [], _ => none
  | (k, v) :: rest, n => if k = n then some v else fsGet rest n

/-- Remove an object. -/
def fsDel : Fs → String → Fs
  | [], _ => []
  | (k, v) :: rest, n => if k = n then fsDel rest n else (k, v) :: fsDel rest n

/-- Create or overwrite an object. -/
def fsSet (fs : Fs) (n : String) (v : String) : Fs :=
  (n, v) :: fsDel fs n

/-- Truthful existence probe of the file system, as the orchestrator model
uses it for `fileExists` calls. -/
def fsHas (fs : Fs) (n : String) : Bool :=
  (fsGet fs n).isSome

/-- Move the content of `old` to `new` (the effect of a successful
`RNFR`/`RNTO` pair). -/
def fsRename (fs : Fs) (old new : String) : Fs :=
  match fsGet fs old with
  | none => fs
  | some v => fsSet (fsDel fs old) new v

/-! ## Fallible primitives, driven by scheduled outcomes -/

/-- Outcome of one `DELE` command (`FTPClient::deleteFile`, lines 464–477):
the command can be rejected (non-`250` reply), succeed and really remove
the object, or report `250` while the object persists (the case
`safeDeleteFile` re-probes for). -/
inductive DelOut where
  | cmdFail
  | gone
  | ghost
deriving DecidableEq, Repr

/-- `FTPClient::deleteFile`: reply-based boolean plus the actual effect.
`DELE` on a missing object is rejected by the server. -/
def deleteFile (fs : Fs) (name : String) (o : DelOut) : Bool × Fs :=
  match fsGet fs name with
  | none => (false, fs)
  | some _ =>
    match o with
    | DelOut.cmdFail => (false, fs)
    | DelOut.gone => (true, fsDel fs name)
    | DelOut.ghost => (true, fs)

/-- `FTPClient::renameFile` (lines 479–502): `RNFR` on a missing source is
rejected; otherwise the scheduled outcome decides whether the
`RNFR`/`RNTO` pair succeeds and moves the object. -/
def renameFile (fs : Fs) (old new : String) (ok : Bool) : Bool × Fs :=
  match fsGet fs old with
  | none => (false, fs)
  | some _ => if ok then (true, fsRename fs old new) else (false, fs)

/-- Outcome of one `STOR` transfer (`FTPClient::createFile`): full success,
failure with nothing written (PASV/data-connect/`STOR` rejection), or
failure after a short write that left a prefix of the content behind. -/
inductive StorOut where
  | ok
  | failNone
  | failWrote (k : Nat)
deriving DecidableEq, Repr

/-- Effect of `FTPClient::createFile name content` on the file system. -/
def createFile (fs : Fs) (name content : String) (o : StorOut) : Bool × Fs :=
  match o with
  | StorOut.ok => (true, fsSet fs name content)
  | StorOut.failNone => (false, fs)
  | StorOut.failWrote k => (false, fsSet fs name (String.mk (content.data.take k)))

/-- `FTPClient::downloadFile`: on success the actual remote content (a
missing object downloads as `""`), on any failure `""` — the code returns
the empty string for every failure mode. -/
def downloadFile (fs : Fs) (name : String) (ok : Bool) : String :=
  if ok then (fsGet fs name).getD "" else ""

/-! ## `FTPClient::safeDeleteFile` (FTPClient.cpp lines 504–586) -/

/-- The delete-with-verification loop: up to `n` (source: 5) attempts; a
`DELE` reported successful is only trusted when a re-probe no longer finds
the object.  Returns whether the delete was confirmed, with the resulting
file system. -/
def safeDeleteAttempts (name : String) : Fs → List DelOut → Nat → Bool × Fs
  | fs, _, 0 => (false, fs)
  | fs, outs, n + 1 =>
    if (deleteFile fs name (outs.headD DelOut.cmdFail)).1 then
      if fsHas (deleteFile fs name (outs.headD DelOut.cmdFail)).2 name then
        safeDeleteAttempts name (deleteFile fs name (outs.headD DelOut.cmdFail)).2 outs.tail n
      else (true, (deleteFile fs name (outs.headD DelOut.cmdFail)).2)
    else
      safeDeleteAttempts name (deleteFile fs name (outs.headD DelOut.cmdFail)).2 outs.tail n

/-- The backup-name search: starting from `base ++ ".bak"` with counter 1,
while the candidate exists move to `base ++ ".bak" ++ toString counter` and
bump the counter, giving up (without probing the last candidate) once the
bumped counter exceeds 10. -/
def findBackupLoop (fs : Fs) (base : String) : Nat → String → Nat → Option String
  | 0, _, _ => none
  | fuel + 1, name, counter =>
    if fsHas fs name then
      if 10 < counter + 1 then none
      else findBackupLoop fs base fuel (base ++ ".bak" ++ toString counter) (counter + 1)
    else some name

/-- The backup-rename loop: up to `n` (source: 3) scheduled rename
attempts. -/
def renameAttempts (name bak : String) : Fs → List Bool → Nat → Bool × Fs
  | fs, _, 0 => (false, fs)
  | fs, rs, n + 1 =>
    if (renameFile fs name bak (rs.headD false)).1 then
      (true, (renameFile fs name bak (rs.headD false)).2)
    else renameAttempts name bak (renameFile fs name bak (rs.headD false)).2 rs.tail n

/-- `FTPClient::safeDeleteFile`: five delete-and-verify attempts, then the
backup fallback — find the first unused backup name and rename the stuck
object to it (three tries).  `true` means the canonical path is clear. -/
def safeDeleteFile (fs : Fs) (name : String) (outs : List DelOut)
    (renames : List Bool) : Bool × Fs :=
  if (safeDeleteAttempts name fs outs 5).1 then
    (true, (safeDeleteAttempts name fs outs 5).2)
  else
    match findBackupLoop (safeDeleteAttempts name fs outs 5).2 (baseNameOf name) 11
        (baseNameOf name ++ ".bak") 1 with
    | none => (false, (safeDeleteAttempts name fs outs 5).2)
    | some bak => renameAttempts name bak (safeDeleteAttempts name fs outs 5).2 renames 3

/-! ## `FTPClient::uploadData` (FTPClient.cpp lines 592–893) -/

/-- The header line written when a brand-new log file is created
(line 709). -/
def headerLine : String :=
  "Date,Sample Size,Temp (°C),Pressure (hPa),Humidity (RH%)\r\n"

/-- Inputs of one `uploadData` call. -/
structure UpArgs where
  filename : String
  csvData : String
  createHeader : Bool

/-- The temporary staging name (line 637). -/
def tempNameOf (filename : String) : String :=
  baseNameOf filename ++ "_new.csv"

/-- Scheduled outcomes for every fallible primitive of one outer attempt.
`extWrite` models a concurrent external write to the canonical name in the
window between the delete step and the guard re-probe. -/
structure AttemptSched where
  sessionOk : Bool
  dlOrigOk : Bool
  stor : StorOut
  dlVerifyOk : Bool
  delSched : List DelOut
  bakRenames : List Bool
  cleanupDel : DelOut
  extWrite : Option String
  commitOk : Bool
  dlFinalOk : Bool

/-- How one outer attempt concludes. -/
inductive AOut where
  | sessionFail
  | dlOrigFail
  | stageFail
  | verifyFail
  | deleteFail
  | guardFail
  | commitFail
  | finalFail
  | ok
deriving DecidableEq, Repr

/-- The merged content an attempt stages: the downloaded prior content
plus the new record when the canonical object exists, otherwise the new
record with an optional header (lines 643–713). -/
def fullContentOf (fs : Fs) (a : UpArgs) (dlOrigOk : Bool) : String :=
  if fsHas fs a.filename then downloadFile fs a.filename dlOrigOk ++ a.csvData
  else if a.createHeader then headerLine ++ a.csvData else a.csvData

/-- A concurrent external write to the canonical name in the window
between the delete step and the guard re-probe (the reappearance the
guard at line 821 defends against); `none` means no interference. -/
def applyExtWrite (fs : Fs) (filename : String) (w? : Option String) : Fs :=
  match w? with
  | none => fs
  | some w => fsSet fs filename w

/-- One outer attempt of `uploadData` (the body of the `for` loop at
lines 598–889): session setup, existence probe, download-and-merge (or
fresh content with optional header), stage to the temporary name, length
verification of the staged object (removing it on mismatch), safe delete
of the original, guard re-probe of the canonical name, commit rename, and
final length verification. -/
def attemptOnce (fs : Fs) (a : UpArgs) (s : AttemptSched) : AOut × Fs :=
  if ¬ s.sessionOk then (AOut.sessionFail, fs)
  else if fsHas fs a.filename ∧
      (downloadFile fs a.filename s.dlOrigOk).data.length = 0 then
    (AOut.dlOrigFail, fs)
  else
    let tempName := tempNameOf a.filename
    let full := fullContentOf fs a s.dlOrigOk
    let st := createFile fs tempName full s.stor
    if ¬ st.1 then (AOut.stageFail, st.2)
    else if ¬ (downloadFile st.2 tempName s.dlVerifyOk).data.length = full.data.length then
      (AOut.verifyFail, (deleteFile st.2 tempName s.cleanupDel).2)
    else
      let del :=
        if fsHas fs a.filename then safeDeleteFile st.2 a.filename s.delSched s.bakRenames
        else (true, st.2)
      if ¬ del.1 then (AOut.deleteFail, (deleteFile del.2 tempName s.cleanupDel).2)
      else
        let fs3 := applyExtWrite del.2 a.filename s.extWrite
        if fsHas fs3 a.filename then (AOut.guardFail, fs3)
        else
          let rn := renameFile fs3 tempName a.filename s.commitOk
          if ¬ rn.1 then (AOut.commitFail, rn.2)
          else if fsHas rn.2 a.filename then
            if (downloadFile rn.2 a.filename s.dlFinalOk).data.length = full.data.length
            then (AOut.ok, rn.2)
            else (AOut.finalFail, rn.2)
          else (AOut.finalFail, rn.2)

/-- `FTPClient::uploadData`: two outer attempts; every failure kind of the
first attempt (commit-rename failure included) falls through to the
retry.  Returns the boolean the caller sees, the final file system, and
how many outer attempts ran. -/
def uploadData (fs : Fs) (a : UpArgs) (s1 s2 : AttemptSched) : Bool × Fs × Nat :=
  if (attemptOnce fs a s1).1 = AOut.ok then (true, (attemptOnce fs a s1).2, 1)
  else
    (decide ((attemptOnce (attemptOnce fs a s1).2 a s2).1 = AOut.ok),
      (attemptOnce (attemptOnce fs a s1).2 a s2).2, 2)

/-! ## Basic file-system lemmas -/

theorem fsGet_fsDel (fs : Fs) (n m : String) :
    fsGet (fsDel fs n) m = if n = m then none else fsGet fs m := by
  induction fs with
  | nil => simp [fsDel, fsGet]
  | cons p rest ih =>
    obtain ⟨k, v⟩ := p
    by_cases hk : k = n
    · subst hk
      by_cases hm : k = m
      · subst hm
        simp [fsDel, fsGet, ih]
      · simp [fsDel, fsGet, hm, ih]
    · by_cases hm : k = m
      · subst hm
        have hn : ¬ n = k := fun h => hk h.symm
        simp [fsDel, fsGet, hk, hn, ih]
      · simp [fsDel, fsGet, hk, hm, ih]

theorem fsGet_fsSet (fs : Fs) (n v m) :
    fsGet (fsSet fs n v) m = if n = m then some v else fsGet fs m := by
  by_cases h : n = m <;> simp [fsSet, fsGet, h, fsGet_fsDel]

theorem fsHas_eq (fs : Fs) (n : String) : fsHas fs n = (fsGet fs n).isSome := rfl

theorem fsGet_fsRename_of_ne (fs : Fs) (old new m : String)
    (h1 : ¬ old = m) (h2 : ¬ new = m) :
    fsGet (fsRename fs old new) m = fsGet fs m := by
  unfold fsRename
  cases h : fsGet fs old with
  | none => rfl
  | some v => simp [fsGet_fsSet, fsGet_fsDel, h1, h2]

/-! ## Name-shape lemmas

The staging name `<stem>_new.csv` and the backup names `<stem>.bak`,
`<stem>.bakN` are built from the same stem, so they can never collide with
each other or (for the staging name) with the canonical name. -/

theorem dropWhile_head_false {α : Type} (p : α → Bool) :
    ∀ (l : List α) (c : α) (rest : List α),
      List.dropWhile p l = c :: rest → p c = false := by
  intro l
  induction l with
  | nil => intro c rest h; simp [List.dropWhile] at h
  | cons a l ih =>
    intro c rest h
    rw [List.dropWhile_cons] at h
    by_cases hp : p a = true
    · rw [if_pos hp] at h
      exact ih c rest h
    · rw [if_neg hp] at h
      injection h with h1 _
      rw [← h1]
      simpa using hp

theorem takeBeforeLastDot_spec (cs : List Char) :
    takeBeforeLastDot cs = cs ∨
    ∃ tail, cs = takeBeforeLastDot cs ++ '.' :: tail := by
  rcases h : cs.reverse.dropWhile (fun c => ¬ c = '.') with _ | ⟨c, rest⟩
  · left
    unfold takeBeforeLastDot
    rw [h]
  · right
    have hc0 := dropWhile_head_false (fun c => ¬ c = '.') cs.reverse c rest h
    simp at hc0
    have hsplit := List.takeWhile_append_dropWhile (fun c => ¬ c = '.') cs.reverse
    rw [h] at hsplit
    refine ⟨(cs.reverse.takeWhile (fun c => ¬ c = '.')).reverse, ?_⟩
    unfold takeBeforeLastDot
    rw [h]
    have hcs : cs = (cs.reverse.takeWhile (fun c => ¬ c = '.') ++ c :: rest).reverse := by
      rw [hsplit, List.reverse_reverse]
    conv_lhs => rw [hcs]
    rw [List.reverse_append]
    simp [hc0]

theorem tempNameOf_ne (f : String) : ¬ tempNameOf f = f := by
  intro he
  have hdata : (takeBeforeLastDot f.data) ++ "_new.csv".data = f.data := by
    have h1 := congrArg String.data he
    rw [show tempNameOf f = baseNameOf f ++ "_new.csv" from rfl,
      String.data_append] at h1
    exact h1
  rcases takeBeforeLastDot_spec f.data with h | ⟨tail, h⟩
  · have hdata2 := hdata
    rw [h] at hdata2
    have hlen := congrArg List.length hdata2
    rw [List.length_append] at hlen
    rw [show ("_new.csv".data).length = 8 from rfl] at hlen
    omega
  · have h2 : "_new.csv".data = '.' :: tail :=
      List.append_cancel_left (hdata.trans h)
    rw [show "_new.csv".data = '_' :: "new.csv".data from rfl] at h2
    injection h2 with h3 _
    exact absurd h3 (by decide)

/-- The backup-name shapes `safeDeleteFile` can produce. -/
def IsBakName (base b : String) : Prop :=
  b = base ++ ".bak" ∨ ∃ k : Nat, b = base ++ ".bak" ++ toString k

theorem isBakName_ne_temp (f b : String) (hb : IsBakName (baseNameOf f) b) :
    ¬ b = tempNameOf f := by
  intro he
  have hT : (tempNameOf f).data = (baseNameOf f).data ++ "_new.csv".data := by
    rw [show tempNameOf f = baseNameOf f ++ "_new.csv" from rfl, String.data_append]
  rcases hb with h | ⟨k, h⟩
  · rw [h] at he
    have hd := congrArg String.data he
    rw [String.data_append, hT] at hd
    have h2 := List.append_cancel_left hd
    rw [show ".bak".data = '.' :: "bak".data from rfl,
      show "_new.csv".data = '_' :: "new.csv".data from rfl] at h2
    injection h2 with h3 _
    exact absurd h3 (by decide)
  · rw [h] at he
    have hd := congrArg String.data he
    rw [String.data_append, String.data_append, List.append_assoc, hT] at hd
    have h2 := List.append_cancel_left hd
    rw [show ".bak".data = '.' :: "bak".data from rfl,
      show "_new.csv".data = '_' :: "new.csv".data from rfl] at h2
    rw [List.cons_append] at h2
    injection h2 with h3 _
    exact absurd h3 (by decide)

/-! ## Behaviour of the fallible primitives on the file system -/

theorem deleteFile_snd (fs : Fs) (name : String) (o : DelOut) :
    (deleteFile fs name o).2 = fs ∨ (deleteFile fs name o).2 = fsDel fs name := by
  cases h : fsGet fs name <;> cases o <;> simp [deleteFile, h]

theorem deleteFile_preserves (fs : Fs) (name : String) (o : DelOut) (m : String)
    (h : ¬ name = m) : fsGet (deleteFile fs name o).2 m = fsGet fs m := by
  rcases deleteFile_snd fs name o with h2 | h2 <;> rw [h2]
  rw [fsGet_fsDel, if_neg h]

theorem deleteFile_false (fs : Fs) (name : String) (o : DelOut)
    (h : ¬ (deleteFile fs name o).1 = true) : (deleteFile fs name o).2 = fs := by
  cases ho : fsGet fs name <;> cases o <;> simp [deleteFile, ho] at h ⊢

theorem deleteFile_true_has (fs : Fs) (name : String) (o : DelOut)
    (h1 : (deleteFile fs name o).1 = true)
    (h2 : fsHas (deleteFile fs name o).2 name = true) :
    (deleteFile fs name o).2 = fs := by
  cases ho : fsGet fs name <;> cases o <;>
    simp [deleteFile, ho, fsHas, fsGet_fsDel] at h1 h2 ⊢

theorem createFile_preserves (fs : Fs) (n c : String) (o : StorOut) (m : String)
    (h : ¬ n = m) : fsGet (createFile fs n c o).2 m = fsGet fs m := by
  cases o <;> simp [createFile, fsGet_fsSet, h]

theorem renameFile_false (fs : Fs) (old new : String) (ok : Bool)
    (h : ¬ (renameFile fs old new ok).1 = true) :
    (renameFile fs old new ok).2 = fs := by
  cases ho : fsGet fs old <;> cases ok <;> simp [renameFile, ho] at h ⊢

theorem renameFile_true (fs : Fs) (old new : String) (ok : Bool)
    (h : (renameFile fs old new ok).1 = true) :
    ∃ v, fsGet fs old = some v ∧
      (renameFile fs old new ok).2 = fsSet (fsDel fs old) new v := by
  cases ho : fsGet fs old <;> cases ok <;> simp [renameFile, ho] at h ⊢
  rw [fsRename, ho]

/-! ## Behaviour of `safeDeleteFile` -/

theorem safeDeleteAttempts_false (name : String) (n : Nat) :
    ∀ (fs : Fs) (outs : List DelOut),
      (safeDeleteAttempts name fs outs n).1 = false →
      (safeDeleteAttempts name fs outs n).2 = fs := by
  induction n with
  | zero => intro fs outs _; rfl
  | succ n ih =>
    intro fs outs h
    unfold safeDeleteAttempts at h ⊢
    by_cases h1 : (deleteFile fs name (outs.headD DelOut.cmdFail)).1 = true
    · by_cases h2 : fsHas (deleteFile fs name (outs.headD DelOut.cmdFail)).2 name = true
      · rw [if_pos h1, if_pos h2] at h ⊢
        rw [ih _ _ h, deleteFile_true_has fs name _ h1 h2]
      · rw [if_pos h1, if_neg h2] at h
        simp at h
    · rw [if_neg h1] at h ⊢
      rw [ih _ _ h, deleteFile_false fs name _ h1]

theorem safeDeleteAttempts_true_absent (name : String) (n : Nat) :
    ∀ (fs : Fs) (outs : List DelOut),
      (safeDeleteAttempts name fs outs n).1 = true →
      fsGet (safeDeleteAttempts name fs outs n).2 name = none := by
  induction n with
  | zero => intro fs outs h; simp [safeDeleteAttempts] at h
  | succ n ih =>
    intro fs outs h
    unfold safeDeleteAttempts at h ⊢
    by_cases h1 : (deleteFile fs name (outs.headD DelOut.cmdFail)).1 = true
    · by_cases h2 : fsHas (deleteFile fs name (outs.headD DelOut.cmdFail)).2 name = true
      · rw [if_pos h1, if_pos h2] at h ⊢
        exact ih _ _ h
      · rw [if_pos h1, if_neg h2]
        rcases ho : fsGet (deleteFile fs name (outs.headD DelOut.cmdFail)).2 name with _ | v
        · rfl
        · rw [fsHas_eq, ho] at h2
          simp at h2
    · rw [if_neg h1] at h ⊢
      exact ih _ _ h

theorem safeDeleteAttempts_shape (name : String) (n : Nat) :
    ∀ (fs : Fs) (outs : List DelOut),
      (safeDeleteAttempts name fs outs n).2 = fs ∨
      (safeDeleteAttempts name fs outs n).2 = fsDel fs name := by
  induction n with
  | zero => intro fs outs; left; rfl
  | succ n ih =>
    intro fs outs
    unfold safeDeleteAttempts
    by_cases h1 : (deleteFile fs name (outs.headD DelOut.cmdFail)).1 = true
    · by_cases h2 : fsHas (deleteFile fs name (outs.headD DelOut.cmdFail)).2 name = true
      · rw [if_pos h1, if_pos h2]
        rw [deleteFile_true_has fs name _ h1 h2]
        exact ih fs outs.tail
      · rw [if_pos h1, if_neg h2]
        exact deleteFile_snd fs name _
    · rw [if_neg h1]
      rw [deleteFile_false fs name _ h1]
      exact ih fs outs.tail

theorem renameAttempts_false (name bak : String) (n : Nat) :
    ∀ (fs : Fs) (rs : List Bool),
      (renameAttempts name bak fs rs n).1 = false →
      (renameAttempts name bak fs rs n).2 = fs := by
  induction n with
  | zero => intro fs rs _; rfl
  | succ n ih =>
    intro fs rs h
    unfold renameAttempts at h ⊢
    by_cases h1 : (renameFile fs name bak (rs.headD false)).1 = true
    · rw [if_pos h1] at h
      simp at h
    · rw [if_neg h1] at h ⊢
      rw [ih _ _ h, renameFile_false fs name bak _ h1]

theorem renameAttempts_true (name bak : String) (n : Nat) :
    ∀ (fs : Fs) (rs : List Bool),
      (renameAttempts name bak fs rs n).1 = true →
      ∃ v, fsGet fs name = some v ∧
        (renameAttempts name bak fs rs n).2 = fsSet (fsDel fs name) bak v := by
  induction n with
  | zero => intro fs rs h; simp [renameAttempts] at h
  | succ n ih =>
    intro fs rs h
    unfold renameAttempts at h ⊢
    by_cases h1 : (renameFile fs name bak (rs.headD false)).1 = true
    · rw [if_pos h1]
      exact renameFile_true fs name bak _ h1
    · rw [if_neg h1] at h ⊢
      rw [renameFile_false fs name bak _ h1] at h ⊢
      exact ih _ _ h

theorem findBackupLoop_isBak (fs : Fs) (base : String) (b : String) :
    ∀ (fuel : Nat) (nm : String) (ctr : Nat), IsBakName base nm →
      findBackupLoop fs base fuel nm ctr = some b → IsBakName base b := by
  intro fuel
  induction fuel with
  | zero => intro nm ctr _ h; simp [findBackupLoop] at h
  | succ fuel ih =>
    intro nm ctr hnm h
    unfold findBackupLoop at h
    by_cases h1 : fsHas fs nm = true
    · rw [if_pos h1] at h
      by_cases h2 : 10 < ctr + 1
      · rw [if_pos h2] at h
        exact absurd h (by simp)
      · rw [if_neg h2] at h
        exact ih _ _ (Or.inr ⟨ctr, rfl⟩) h
    · rw [if_neg h1] at h
      have hb : b = nm := by
        have := h
        injection this with h3
        exact h3.symm
      rw [hb]
      exact hnm

theorem findBackupLoop_free (fs : Fs) (base : String) (b : String) :
    ∀ (fuel : Nat) (nm : String) (ctr : Nat),
      findBackupLoop fs base fuel nm ctr = some b → fsHas fs b = false := by
  intro fuel
  induction fuel with
  | zero => intro nm ctr h; simp [findBackupLoop] at h
  | succ fuel ih =>
    intro nm ctr h
    unfold findBackupLoop at h
    by_cases h1 : fsHas fs nm = true
    · rw [if_pos h1] at h
      by_cases h2 : 10 < ctr + 1
      · rw [if_pos h2] at h
        exact absurd h (by simp)
      · rw [if_neg h2] at h
        exact ih _ _ h
    · rw [if_neg h1] at h
      have hb : b = nm := by injection h with h3; exact h3.symm
      rw [hb]
      simpa using h1

theorem safeDeleteFile_false (fs : Fs) (name : String) (outs : List DelOut)
    (rs : List Bool) (h : (safeDeleteFile fs name outs rs).1 = false) :
    (safeDeleteFile fs name outs rs).2 = fs := by
  unfold safeDeleteFile at h ⊢
  by_cases hA : (safeDeleteAttempts name fs outs 5).1 = true
  · rw [if_pos hA] at h
    simp at h
  · have hA' : (safeDeleteAttempts name fs outs 5).1 = false := by
      simpa using hA
    have hfs1 := safeDeleteAttempts_false name 5 fs outs hA'
    rw [if_neg hA] at h ⊢
    rcases hm : findBackupLoop (safeDeleteAttempts name fs outs 5).2 (baseNameOf name) 11
        (baseNameOf name ++ ".bak") 1 with _ | bak
    · exact hfs1
    · rw [hm] at h
      have h' : (renameAttempts name bak (safeDeleteAttempts name fs outs 5).2 rs 3).1 = false := h
      show (renameAttempts name bak (safeDeleteAttempts name fs outs 5).2 rs 3).2 = fs
      rw [renameAttempts_false name bak 3 _ _ h']
      exact hfs1

theorem safeDeleteFile_shape (fs : Fs) (name : String) (outs : List DelOut)
    (rs : List Bool) :
    (safeDeleteFile fs name outs rs).2 = fs ∨
    (safeDeleteFile fs name outs rs).2 = fsDel fs name ∨
    ∃ b v, IsBakName (baseNameOf name) b ∧ fsGet fs name = some v ∧
      (safeDeleteFile fs name outs rs).2 = fsSet (fsDel fs name) b v := by
  unfold safeDeleteFile
  by_cases hA : (safeDeleteAttempts name fs outs 5).1 = true
  · rw [if_pos hA]
    rcases safeDeleteAttempts_shape name 5 fs outs with h | h
    · exact Or.inl h
    · exact Or.inr (Or.inl h)
  · have hA' : (safeDeleteAttempts name fs outs 5).1 = false := by simpa using hA
    have hfs1 := safeDeleteAttempts_false name 5 fs outs hA'
    rw [if_neg hA]
    rcases hm : findBackupLoop (safeDeleteAttempts name fs outs 5).2 (baseNameOf name) 11
        (baseNameOf name ++ ".bak") 1 with _ | bak
    · exact Or.inl hfs1
    · by_cases hR : (renameAttempts name bak (safeDeleteAttempts name fs outs 5).2 rs 3).1 = true
      · rcases renameAttempts_true name bak 3 _ _ hR with ⟨v, hv, hfs2⟩
        rw [hfs1] at hv
        refine Or.inr (Or.inr ⟨bak, v,
          findBackupLoop_isBak _ _ _ 11 _ 1 (Or.inl rfl) hm, hv, ?_⟩)
        show (renameAttempts name bak (safeDeleteAttempts name fs outs 5).2 rs 3).2 =
          fsSet (fsDel fs name) bak v
        rw [hfs2, hfs1]
      · have hR' : (renameAttempts name bak (safeDeleteAttempts name fs outs 5).2 rs 3).1 = false := by
          simpa using hR
        refine Or.inl ?_
        show (renameAttempts name bak (safeDeleteAttempts name fs outs 5).2 rs 3).2 = fs
        rw [renameAttempts_false name bak 3 _ _ hR']
        exact hfs1

theorem safeDeleteFile_preserves (fs : Fs) (name : String) (outs : List DelOut)
    (rs : List Bool) (m : String) (h1 : ¬ name = m)
    (h2 : ∀ b, IsBakName (baseNameOf name) b → ¬ b = m) :
    fsGet (safeDeleteFile fs name outs rs).2 m = fsGet fs m := by
  rcases safeDeleteFile_shape fs name outs rs with h | h | ⟨b, v, hb, _, h⟩
  · rw [h]
  · rw [h, fsGet_fsDel, if_neg h1]
  · rw [h, fsGet_fsSet, if_neg (h2 b hb), fsGet_fsDel, if_neg h1]

theorem safeDeleteFile_true_absent (fs : Fs) (name : String) (outs : List DelOut)
    (rs : List Bool) (h : (safeDeleteFile fs name outs rs).1 = true) :
    fsGet (safeDeleteFile fs name outs rs).2 name = none := by
  unfold safeDeleteFile at h ⊢
  by_cases hA : (safeDeleteAttempts name fs outs 5).1 = true
  · rw [if_pos hA]
    exact safeDeleteAttempts_true_absent name 5 fs outs hA
  · have hA' : (safeDeleteAttempts name fs outs 5).1 = false := by simpa using hA
    have hfs1 := safeDeleteAttempts_false name 5 fs outs hA'
    rw [if_neg hA] at h ⊢
    rcases hm : findBackupLoop (safeDeleteAttempts name fs outs 5).2 (baseNameOf name) 11
        (baseNameOf name ++ ".bak") 1 with _ | bak
    · rw [hm] at h
      exact absurd (show (false : Bool) = true from h) (by simp)
    · rw [hm] at h
      have h' : (renameAttempts name bak (safeDeleteAttempts name fs outs 5).2 rs 3).1 = true := h
      rcases renameAttempts_true name bak 3 _ _ h' with ⟨v, hv, hfs2⟩
      show fsGet (renameAttempts name bak (safeDeleteAttempts name fs outs 5).2 rs 3).2 name = none
      rw [hfs2, fsGet_fsSet]
      have hfree := findBackupLoop_free _ _ _ 11 _ 1 hm
      have hbn : ¬ bak = name := by
        intro hbn
        rw [hbn] at hfree
        rw [fsHas_eq, hv] at hfree
        simp at hfree
      rw [if_neg hbn, fsGet_fsDel, if_pos rfl]

theorem createFile_true (fs : Fs) (n c : String) (o : StorOut)
    (h : (createFile fs n c o).1 = true) : (createFile fs n c o).2 = fsSet fs n c := by
  cases o <;> simp [createFile] at h ⊢

theorem applyExtWrite_preserves (fs : Fs) (filename : String) (w? : Option String)
    (m : String) (h : ¬ filename = m) :
    fsGet (applyExtWrite fs filename w?) m = fsGet fs m := by
  cases w? <;> simp [applyExtWrite, fsGet_fsSet, h]

/-! ## Claim theorems: the safe-append orchestrator -/

/-- C1 (amended part): for every schedule, when an outer attempt concludes
at the session, download, staging, stage-verify, or delete step, the
original canonical object is untouched: its prior content is still at the
canonical name.  In particular the original is never removed before the
staged object has passed length verification. -/
theorem attemptOnce_earlyAbort_preserves_original
    (fs : Fs) (a : UpArgs) (s : AttemptSched) (P : String)
    (hP : fsGet fs a.filename = some P)
    (hout : (attemptOnce fs a s).1 = AOut.sessionFail ∨
            (attemptOnce fs a s).1 = AOut.dlOrigFail ∨
            (attemptOnce fs a s).1 = AOut.stageFail ∨
            (attemptOnce fs a s).1 = AOut.verifyFail ∨
            (attemptOnce fs a s).1 = AOut.deleteFail) :
    fsGet (attemptOnce fs a s).2 a.filename = some P := by
  have htmp : ¬ tempNameOf a.filename = a.filename := tempNameOf_ne a.filename
  have hhas : fsHas fs a.filename = true := by rw [fsHas_eq, hP]; rfl
  rcases hE : attemptOnce fs a s with ⟨o, fs2⟩
  rw [hE] at hout
  have hout' : o = AOut.sessionFail ∨ o = AOut.dlOrigFail ∨ o = AOut.stageFail ∨
      o = AOut.verifyFail ∨ o = AOut.deleteFail := hout
  show fsGet fs2 a.filename = some P
  unfold attemptOnce at hE
  rw [hhas] at hE
  simp only [eq_self_iff_true, true_and, if_true] at hE
  split at hE
  · injection hE with ho hfs
    rw [← hfs]
    exact hP
  · split at hE
    · injection hE with ho hfs
      rw [← hfs]
      exact hP
    · split at hE
      · injection hE with ho hfs
        rw [← hfs, createFile_preserves _ _ _ _ _ htmp]
        exact hP
      · split at hE
        · injection hE with ho hfs
          rw [← hfs, deleteFile_preserves _ _ _ _ htmp,
            createFile_preserves _ _ _ _ _ htmp]
          exact hP
        · split at hE
          · next h5 =>
            injection hE with ho hfs
            rw [← hfs, deleteFile_preserves _ _ _ _ htmp,
              safeDeleteFile_false _ _ _ _ (by simpa using h5),
              createFile_preserves _ _ _ _ _ htmp]
            exact hP
          · split at hE
            · injection hE with ho hfs
              rw [← ho] at hout'
              simp at hout'
            · split at hE
              · injection hE with ho hfs
                rw [← ho] at hout'
                simp at hout'
              · split at hE
                · split at hE
                  · injection hE with ho hfs
                    rw [← ho] at hout'
                    simp at hout'
                  · injection hE with ho hfs
                    rw [← ho] at hout'
                    simp at hout'
                · injection hE with ho hfs
                  rw [← ho] at hout'
                  simp at hout'

/-- Witness for `attemptOnce_earlyAbort_preserves_original`: a concrete
stage-verify abort leaves the original untouched. -/
theorem attemptOnce_earlyAbort_witness :
    fsGet (attemptOnce [("data.csv", "H\r\nrow1\r\n")]
      ⟨"data.csv", "row2\r\n", false⟩
      ⟨true, true, StorOut.ok, false, [DelOut.gone], [true], DelOut.gone,
        none, true, true⟩).2 "data.csv" = some "H\r\nrow1\r\n" :=
  attemptOnce_earlyAbort_preserves_original _ _ _ _ rfl
    (Or.inr (Or.inr (Or.inr (Or.inl rfl))))

theorem downloadFile_eq_of_len (fs : Fs) (name : String) (ok : Bool) (P : String)
    (hP : fsGet fs name = some P)
    (h : ¬ (downloadFile fs name ok).data.length = 0) : downloadFile fs name ok = P := by
  cases ok
  · simp [downloadFile] at h
  · simp [downloadFile, hP]

theorem attemptOnce_ok_of_exists (fs : Fs) (a : UpArgs) (s : AttemptSched) (P : String)
    (hP : fsGet fs a.filename = some P) (hok : (attemptOnce fs a s).1 = AOut.ok) :
    fsGet (attemptOnce fs a s).2 a.filename = some (P ++ a.csvData) := by
  have htmp : ¬ tempNameOf a.filename = a.filename := tempNameOf_ne a.filename
  have hfn : ¬ a.filename = tempNameOf a.filename := fun h => htmp h.symm
  have hhas : fsHas fs a.filename = true := by rw [fsHas_eq, hP]; rfl
  rcases hE : attemptOnce fs a s with ⟨o, fs2⟩
  rw [hE] at hok
  have hok' : o = AOut.ok := hok
  show fsGet fs2 a.filename = some (P ++ a.csvData)
  unfold attemptOnce at hE
  rw [hhas] at hE
  simp only [eq_self_iff_true, true_and, if_true] at hE
  split at hE
  · injection hE with ho hfs
    rw [← ho] at hok'
    simp at hok'
  · split at hE
    · injection hE with ho hfs
      rw [← ho] at hok'
      simp at hok'
    · next h2 =>
      split at hE
      · injection hE with ho hfs
        rw [← ho] at hok'
        simp at hok'
      · next h3 =>
        split at hE
        · injection hE with ho hfs
          rw [← ho] at hok'
          simp at hok'
        · split at hE
          · injection hE with ho hfs
            rw [← ho] at hok'
            simp at hok'
          · split at hE
            · injection hE with ho hfs
              rw [← ho] at hok'
              simp at hok'
            · split at hE
              · injection hE with ho hfs
                rw [← ho] at hok'
                simp at hok'
              · next h7 =>
                split at hE
                · split at hE
                  · injection hE with ho hfs
                    have hdl := downloadFile_eq_of_len fs a.filename s.dlOrigOk P hP h2
                    have hfull : fullContentOf fs a s.dlOrigOk = P ++ a.csvData := by
                      unfold fullContentOf
                      rw [if_pos hhas, hdl]
                    have hst : (createFile fs (tempNameOf a.filename)
                        (fullContentOf fs a s.dlOrigOk) s.stor).1 = true := not_not.mp h3
                    have hrn := not_not.mp h7
                    rcases renameFile_true _ _ _ _ hrn with ⟨v, hv, hr2⟩
                    rw [applyExtWrite_preserves _ _ _ _ hfn,
                      safeDeleteFile_preserves _ _ _ _ _ hfn
                        (fun b hb => isBakName_ne_temp a.filename b hb),
                      createFile_true _ _ _ _ hst, fsGet_fsSet, if_pos rfl] at hv
                    injection hv with hveq
                    rw [← hfs, hr2, fsGet_fsSet, if_pos rfl, ← hveq, hfull]
                  · injection hE with ho hfs
                    rw [← ho] at hok'
                    simp at hok'
                · injection hE with ho hfs
                  rw [← ho] at hok'
                  simp at hok'

theorem attemptOnce_ok_of_fresh (fs : Fs) (a : UpArgs) (s : AttemptSched)
    (hP : fsGet fs a.filename = none) (hH : a.createHeader = true)
    (hok : (attemptOnce fs a s).1 = AOut.ok) :
    fsGet (attemptOnce fs a s).2 a.filename = some (headerLine ++ a.csvData) := by
  have htmp : ¬ tempNameOf a.filename = a.filename := tempNameOf_ne a.filename
  have hfn : ¬ a.filename = tempNameOf a.filename := fun h => htmp h.symm
  have hhas : fsHas fs a.filename = false := by rw [fsHas_eq, hP]; rfl
  rcases hE : attemptOnce fs a s with ⟨o, fs2⟩
  rw [hE] at hok
  have hok' : o = AOut.ok := hok
  show fsGet fs2 a.filename = some (headerLine ++ a.csvData)
  unfold attemptOnce at hE
  rw [hhas] at hE
  simp only [Bool.false_eq_true, false_and, if_false, not_true, ite_false, ite_true,
    eq_self_iff_true, not_false_iff] at hE
  split at hE
  · injection hE with ho hfs
    rw [← ho] at hok'
    simp at hok'
  · split at hE
    · injection hE with ho hfs
      rw [← ho] at hok'
      simp at hok'
    · next h3 =>
      split at hE
      · injection hE with ho hfs
        rw [← ho] at hok'
        simp at hok'
      · split at hE
        · injection hE with ho hfs
          rw [← ho] at hok'
          simp at hok'
        · split at hE
          · injection hE with ho hfs
            rw [← ho] at hok'
            simp at hok'
          · next h7 =>
            split at hE
            · split at hE
              · injection hE with ho hfs
                have hfull : fullContentOf fs a s.dlOrigOk = headerLine ++ a.csvData := by
                  unfold fullContentOf
                  rw [if_neg (by rw [hhas]; simp), hH]
                  rw [if_pos rfl]
                have hst : (createFile fs (tempNameOf a.filename)
                    (fullContentOf fs a s.dlOrigOk) s.stor).1 = true := not_not.mp h3
                have hrn := not_not.mp h7
                rcases renameFile_true _ _ _ _ hrn with ⟨v, hv, hr2⟩
                rw [applyExtWrite_preserves _ _ _ _ hfn,
                  createFile_true _ _ _ _ hst, fsGet_fsSet, if_pos rfl] at hv
                injection hv with hveq
                rw [← hfs, hr2, fsGet_fsSet, if_pos rfl, ← hveq, hfull]
              · injection hE with ho hfs
                rw [← ho] at hok'
                simp at hok'
            · injection hE with ho hfs
              rw [← ho] at hok'
              simp at hok'

/-- C2 (amended): a successful outer attempt yields canonical content
equal to the content the attempt started from plus the record; when the
canonical object was absent and the header flag is set, the content is
the code's header line — `"Date,Sample Size,Temp (°C),Pressure (hPa),`
`Humidity (RH%)\r\n"`, with unit annotations — followed by the record. -/
theorem attemptOnce_ok_append (fs : Fs) (a : UpArgs) (s : AttemptSched) :
    (∀ P, fsGet fs a.filename = some P → (attemptOnce fs a s).1 = AOut.ok →
      fsGet (attemptOnce fs a s).2 a.filename = some (P ++ a.csvData)) ∧
    (fsGet fs a.filename = none → a.createHeader = true →
      (attemptOnce fs a s).1 = AOut.ok →
      fsGet (attemptOnce fs a s).2 a.filename = some (headerLine ++ a.csvData)) :=
  ⟨fun P hP hok => attemptOnce_ok_of_exists fs a s P hP hok,
   fun hP hH hok => attemptOnce_ok_of_fresh fs a s hP hH hok⟩

/-- Witness for `attemptOnce_ok_append`: the append-to-existing scenario
(`"H\r\nrow1\r\n"` + `"row2\r\n"`). -/
theorem attemptOnce_ok_append_witness :
    fsGet (attemptOnce [("data.csv", "H\r\nrow1\r\n")]
      ⟨"data.csv", "row2\r\n", false⟩
      ⟨true, true, StorOut.ok, true, [DelOut.gone], [true], DelOut.gone,
        none, true, true⟩).2 "data.csv" = some ("H\r\nrow1\r\n" ++ "row2\r\n") :=
  (attemptOnce_ok_append _ _ _).1 "H\r\nrow1\r\n" rfl rfl

theorem deleteFile_gone_absent (fs : Fs) (n : String) :
    fsGet (deleteFile fs n DelOut.gone).2 n = none := by
  cases ho : fsGet fs n
  · simp [deleteFile, ho]
  · simp [deleteFile, ho, fsGet_fsDel]

set_option maxHeartbeats 1000000 in
theorem attemptOnce_temp_state (fs : Fs) (a : UpArgs) (s : AttemptSched)
    (o : AOut) (fs2 : Fs) (hE : attemptOnce fs a s = (o, fs2)) :
    (o = AOut.ok → fsGet fs2 (tempNameOf a.filename) = none) ∧
    (o = AOut.verifyFail → s.cleanupDel = DelOut.gone →
      fsGet fs2 (tempNameOf a.filename) = none) ∧
    (o = AOut.deleteFail → s.cleanupDel = DelOut.gone →
      fsGet fs2 (tempNameOf a.filename) = none) ∧
    (o = AOut.guardFail → (fsGet fs2 (tempNameOf a.filename)).isSome = true) ∧
    (o = AOut.commitFail → (fsGet fs2 (tempNameOf a.filename)).isSome = true) := by
  have htmp : ¬ tempNameOf a.filename = a.filename := tempNameOf_ne a.filename
  have hfn : ¬ a.filename = tempNameOf a.filename := fun h => htmp h.symm
  unfold attemptOnce at hE
  simp only [eq_self_iff_true] at hE
  by_cases hhF : fsHas fs a.filename = true
  · rw [if_pos hhF] at hE
    split at hE
    · injection hE with ho hfs
      subst ho; subst hfs
      exact ⟨fun h => absurd h (by decide), fun h _ => absurd h (by decide),
      fun h _ => absurd h (by decide), fun h => absurd h (by decide),
      fun h => absurd h (by decide)⟩
    · split at hE
      · injection hE with ho hfs
        subst ho; subst hfs
        exact ⟨fun h => absurd h (by decide), fun h _ => absurd h (by decide),
        fun h _ => absurd h (by decide), fun h => absurd h (by decide),
        fun h => absurd h (by decide)⟩
      · split at hE
        · injection hE with ho hfs
          subst ho; subst hfs
          exact ⟨fun h => absurd h (by decide), fun h _ => absurd h (by decide),
          fun h _ => absurd h (by decide), fun h => absurd h (by decide),
          fun h => absurd h (by decide)⟩
        · next h3 =>
          split at hE
          · injection hE with ho hfs
            subst ho; subst hfs
            refine ⟨fun h => absurd h (by decide), fun _ hc => ?_,
              fun h _ => absurd h (by decide), fun h => absurd h (by decide),
              fun h => absurd h (by decide)⟩
            rw [hc]
            exact deleteFile_gone_absent _ _
          · split at hE
            · injection hE with ho hfs
              subst ho; subst hfs
              refine ⟨fun h => absurd h (by decide), fun h _ => absurd h (by decide),
                fun _ hc => ?_, fun h => absurd h (by decide),
                fun h => absurd h (by decide)⟩
              rw [hc]
              exact deleteFile_gone_absent _ _
            · split at hE
              · injection hE with ho hfs
                subst ho; subst hfs
                refine ⟨fun h => absurd h (by decide), fun h _ => absurd h (by decide),
                  fun h _ => absurd h (by decide), fun _ => ?_,
                  fun h => absurd h (by decide)⟩
                rw [applyExtWrite_preserves _ _ _ _ hfn,
                  safeDeleteFile_preserves _ _ _ _ _ hfn
                    (fun b hb => isBakName_ne_temp a.filename b hb),
                  createFile_true _ _ _ _ (not_not.mp h3), fsGet_fsSet, if_pos rfl]
                rfl
              · split at hE
                · next h7c =>
                  injection hE with ho hfs
                  subst ho; subst hfs
                  refine ⟨fun h => absurd h (by decide), fun h _ => absurd h (by decide),
                    fun h _ => absurd h (by decide), fun h => absurd h (by decide),
                    fun _ => ?_⟩
                  rw [renameFile_false _ _ _ _ h7c,
                    applyExtWrite_preserves _ _ _ _ hfn,
                    safeDeleteFile_preserves _ _ _ _ _ hfn
                      (fun b hb => isBakName_ne_temp a.filename b hb),
                    createFile_true _ _ _ _ (not_not.mp h3), fsGet_fsSet, if_pos rfl]
                  rfl
                · next h7c =>
                  have hrn := not_not.mp h7c
                  rcases renameFile_true _ _ _ _ hrn with ⟨v, hv, hr2⟩
                  split at hE
                  · split at hE
                    · injection hE with ho hfs
                      subst ho; subst hfs
                      refine ⟨fun _ => ?_, fun h _ => absurd h (by decide),
                        fun h _ => absurd h (by decide), fun h => absurd h (by decide),
                        fun h => absurd h (by decide)⟩
                      rw [hr2, fsGet_fsSet, if_neg hfn, fsGet_fsDel, if_pos rfl]
                    · injection hE with ho hfs
                      subst ho; subst hfs
                      exact ⟨fun h => absurd h (by decide), fun h _ => absurd h (by decide),
                      fun h _ => absurd h (by decide), fun h => absurd h (by decide),
                      fun h => absurd h (by decide)⟩
                  · injection hE with ho hfs
                    subst ho; subst hfs
                    exact ⟨fun h => absurd h (by decide), fun h _ => absurd h (by decide),
                    fun h _ => absurd h (by decide), fun h => absurd h (by decide),
                    fun h => absurd h (by decide)⟩
  · rw [if_neg hhF] at hE
    simp only [not_true, ite_false, if_false] at hE
    split at hE
    · injection hE with ho hfs
      subst ho; subst hfs
      exact ⟨fun h => absurd h (by decide), fun h _ => absurd h (by decide),
      fun h _ => absurd h (by decide), fun h => absurd h (by decide),
      fun h => absurd h (by decide)⟩
    · split at hE
      · injection hE with ho hfs
        subst ho; subst hfs
        exact ⟨fun h => absurd h (by decide), fun h _ => absurd h (by decide),
        fun h _ => absurd h (by decide), fun h => absurd h (by decide),
        fun h => absurd h (by decide)⟩
      · split at hE
        · injection hE with ho hfs
          subst ho; subst hfs
          exact ⟨fun h => absurd h (by decide), fun h _ => absurd h (by decide),
          fun h _ => absurd h (by decide), fun h => absurd h (by decide),
          fun h => absurd h (by decide)⟩
        · next h3 =>
          split at hE
          · injection hE with ho hfs
            subst ho; subst hfs
            refine ⟨fun h => absurd h (by decide), fun _ hc => ?_,
              fun h _ => absurd h (by decide), fun h => absurd h (by decide),
              fun h => absurd h (by decide)⟩
            rw [hc]
            exact deleteFile_gone_absent _ _
          · split at hE
            · injection hE with ho hfs
              subst ho; subst hfs
              refine ⟨fun h => absurd h (by decide), fun h _ => absurd h (by decide),
                fun h _ => absurd h (by decide), fun _ => ?_,
                fun h => absurd h (by decide)⟩
              rw [applyExtWrite_preserves _ _ _ _ hfn,
                createFile_true _ _ _ _ (not_not.mp h3), fsGet_fsSet, if_pos rfl]
              rfl
            · split at hE
              · next h7c =>
                injection hE with ho hfs
                subst ho; subst hfs
                refine ⟨fun h => absurd h (by decide), fun h _ => absurd h (by decide),
                  fun h _ => absurd h (by decide), fun h => absurd h (by decide),
                  fun _ => ?_⟩
                rw [renameFile_false _ _ _ _ h7c,
                  applyExtWrite_preserves _ _ _ _ hfn,
                  createFile_true _ _ _ _ (not_not.mp h3), fsGet_fsSet, if_pos rfl]
                rfl
              · next h7c =>
                have hrn := not_not.mp h7c
                rcases renameFile_true _ _ _ _ hrn with ⟨v, hv, hr2⟩
                split at hE
                · split at hE
                  · injection hE with ho hfs
                    subst ho; subst hfs
                    refine ⟨fun _ => ?_, fun h _ => absurd h (by decide),
                      fun h _ => absurd h (by decide), fun h => absurd h (by decide),
                      fun h => absurd h (by decide)⟩
                    rw [hr2, fsGet_fsSet, if_neg hfn, fsGet_fsDel, if_pos rfl]
                  · injection hE with ho hfs
                    subst ho; subst hfs
                    exact ⟨fun h => absurd h (by decide), fun h _ => absurd h (by decide),
                    fun h _ => absurd h (by decide), fun h => absurd h (by decide),
                    fun h => absurd h (by decide)⟩
                · injection hE with ho hfs
                  subst ho; subst hfs
                  exact ⟨fun h => absurd h (by decide), fun h _ => absurd h (by decide),
                  fun h _ => absurd h (by decide), fun h => absurd h (by decide),
                  fun h => absurd h (by decide)⟩

/-- C4 (amended): once an attempt concludes, the staged object is renamed
away on success; on a stage-verify or delete abort its deletion is
attempted (and it is gone when that cleanup delete succeeds); but aborts
at the guard re-probe and at the commit rename leave the staged object in
place at the temporary name. -/
theorem attemptOnce_staged_cleanup (fs : Fs) (a : UpArgs) (s : AttemptSched) :
    ((attemptOnce fs a s).1 = AOut.ok →
      fsGet (attemptOnce fs a s).2 (tempNameOf a.filename) = none) ∧
    ((attemptOnce fs a s).1 = AOut.verifyFail → s.cleanupDel = DelOut.gone →
      fsGet (attemptOnce fs a s).2 (tempNameOf a.filename) = none) ∧
    ((attemptOnce fs a s).1 = AOut.deleteFail → s.cleanupDel = DelOut.gone →
      fsGet (attemptOnce fs a s).2 (tempNameOf a.filename) = none) ∧
    ((attemptOnce fs a s).1 = AOut.guardFail →
      (fsGet (attemptOnce fs a s).2 (tempNameOf a.filename)).isSome = true) ∧
    ((attemptOnce fs a s).1 = AOut.commitFail →
      (fsGet (attemptOnce fs a s).2 (tempNameOf a.filename)).isSome = true) :=
  attemptOnce_temp_state fs a s (attemptOnce fs a s).1 (attemptOnce fs a s).2 rfl

/-- Witness for `attemptOnce_staged_cleanup`: after a fully successful
attempt the staged object is gone from the temporary name. -/
theorem attemptOnce_staged_cleanup_witness :
    fsGet (attemptOnce [("data.csv", "H\r\nrow1\r\n")]
      ⟨"data.csv", "row2\r\n", false⟩
      ⟨true, true, StorOut.ok, true, [DelOut.gone], [true], DelOut.gone,
        none, true, true⟩).2 (tempNameOf "data.csv") = none :=
  (attemptOnce_staged_cleanup _ _ _).1 rfl

/-- C4 counterexample: a guard-re-probe abort (the canonical name
reappeared through a concurrent write) leaves the staged object at the
temporary name — nothing deletes it.  This falsifies "on every abort the
staged object is deleted". -/
theorem guardAbort_leaves_staged :
    attemptOnce [("data.csv", "H\r\nrow1\r\n")] ⟨"data.csv", "row2\r\n", false⟩
      ⟨true, true, StorOut.ok, true, [DelOut.gone], [true], DelOut.gone,
        some "X", true, true⟩ =
      (AOut.guardFail, [("data.csv", "X"), ("data_new.csv", "H\r\nrow1\r\nrow2\r\n")]) ∧
    fsGet [("data.csv", "X"), ("data_new.csv", "H\r\nrow1\r\nrow2\r\n")] "data_new.csv" =
      some "H\r\nrow1\r\nrow2\r\n" :=
  ⟨rfl, rfl⟩

/-- C1 counterexample: with the original deleted (delete step succeeded
and verified) and the commit rename failing, the attempt aborts with the
prior content `"H\r\nrow1\r\n"` held at neither the canonical name nor
any backup name — it survives only as a prefix of the staged temporary
object.  This falsifies "never simultaneously absent from both". -/
theorem commitRenameFailure_loses_original :
    attemptOnce [("data.csv", "H\r\nrow1\r\n")] ⟨"data.csv", "row2\r\n", false⟩
      ⟨true, true, StorOut.ok, true, [DelOut.gone], [true], DelOut.gone,
        none, false, true⟩ =
      (AOut.commitFail, [("data_new.csv", "H\r\nrow1\r\nrow2\r\n")]) ∧
    fsGet [("data_new.csv", "H\r\nrow1\r\nrow2\r\n")] "data.csv" = none ∧
    fsGet [("data_new.csv", "H\r\nrow1\r\nrow2\r\n")] "data.bak" = none :=
  ⟨rfl, rfl, rfl⟩

/-- C2 counterexample: the fresh-day scenario ends with the code's header
line, which carries unit annotations — not the header the claim states,
so the claimed exact final content is wrong. -/
theorem freshDay_header_mismatch :
    uploadData [] ⟨"data.csv", "01/01/2024 10:00,5,20.0,1012.0,55.00\r\n", true⟩
      ⟨true, true, StorOut.ok, true, [DelOut.gone], [true], DelOut.gone,
        none, true, true⟩
      ⟨true, true, StorOut.ok, true, [DelOut.gone], [true], DelOut.gone,
        none, true, true⟩ =
      (true, [("data.csv",
        "Date,Sample Size,Temp (°C),Pressure (hPa),Humidity (RH%)\r\n01/01/2024 10:00,5,20.0,1012.0,55.00\r\n")],
        1) ∧
    ¬ ("Date,Sample Size,Temp (°C),Pressure (hPa),Humidity (RH%)\r\n01/01/2024 10:00,5,20.0,1012.0,55.00\r\n" =
        "Date,Sample Size,Temp,Pressure,Humidity\r\n01/01/2024 10:00,5,20.0,1012.0,55.00\r\n") :=
  ⟨rfl, by decide⟩

/-- C3 counterexample: a run whose first attempt fails exactly at the
commit rename is retried in full — `uploadData` runs a second outer
attempt and here even returns overall success.  This falsifies "commit
rename failure is surfaced immediately and consumes no further outer
attempts". -/
theorem commitFailure_is_retried :
    (attemptOnce [("data.csv", "H\r\nrow1\r\n")] ⟨"data.csv", "row2\r\n", false⟩
      ⟨true, true, StorOut.ok, true, [DelOut.gone], [true], DelOut.gone,
        none, false, true⟩).1 = AOut.commitFail ∧
    uploadData [("data.csv", "H\r\nrow1\r\n")] ⟨"data.csv", "row2\r\n", false⟩
      ⟨true, true, StorOut.ok, true, [DelOut.gone], [true], DelOut.gone,
        none, false, true⟩
      ⟨true, true, StorOut.ok, true, [DelOut.gone], [true], DelOut.gone,
        none, true, true⟩ =
      (true, [("data.csv", "row2\r\n")], 2) :=
  ⟨rfl, rfl⟩

/-- C3 (amended): a commit-rename failure is handled like every other
failed attempt — when the first outer attempt concludes at the commit
rename, `uploadData` automatically runs the second outer attempt; no
fatal classification exists and the caller sees only a boolean. -/
theorem commitFailure_consumes_second_attempt (fs : Fs) (a : UpArgs)
    (s1 s2 : AttemptSched) (h : (attemptOnce fs a s1).1 = AOut.commitFail) :
    (uploadData fs a s1 s2).2.2 = 2 := by
  unfold uploadData
  rw [if_neg (fun hk => absurd (h.symm.trans hk) (by decide))]

/-- Witness for `commitFailure_consumes_second_attempt` at the concrete
commit-failure run. -/
theorem commitFailure_consumes_second_attempt_witness :
    (uploadData [("data.csv", "H\r\nrow1\r\n")] ⟨"data.csv", "row2\r\n", false⟩
      ⟨true, true, StorOut.ok, true, [DelOut.gone], [true], DelOut.gone,
        none, false, true⟩
      ⟨true, true, StorOut.ok, true, [DelOut.gone], [true], DelOut.gone,
        none, true, true⟩).2.2 = 2 :=
  commitFailure_consumes_second_attempt _ _ _ _ rfl

/-! ## Claim theorems: `safeDeleteFile`'s backup fallback (C5) -/

/-- The backup names `safeDeleteFile` probes, in order. -/
def bakCandidate (base : String) : Nat → String
  | 0 => base ++ ".bak"
  | k + 1 => base ++ ".bak" ++ toString (k + 1)

/-- A remote state in which the canonical object and all ten probed backup
names are occupied — the backup search gives up here. -/
def capFs : Fs :=
  [("data.csv", "OLD"), ("data.bak", "B0"), ("data.bak1", "B1"),
   ("data.bak2", "B2"), ("data.bak3", "B3"), ("data.bak4", "B4"),
   ("data.bak5", "B5"), ("data.bak6", "B6"), ("data.bak7", "B7"),
   ("data.bak8", "B8"), ("data.bak9", "B9")]

theorem safeDeleteAttempts_ghost (name : String) (fs : Fs)
    (hP : (fsGet fs name).isSome = true) (n : Nat) :
    safeDeleteAttempts name fs (List.replicate n DelOut.ghost) n = (false, fs) := by
  induction n with
  | zero => rfl
  | succ n ih =>
    rcases hg : fsGet fs name with _ | v
    · rw [hg] at hP
      simp at hP
    · unfold safeDeleteAttempts
      have hhd : (List.replicate (n + 1) DelOut.ghost).headD DelOut.cmdFail =
          DelOut.ghost := by
        rw [List.replicate_succ]
        rfl
      have htl : (List.replicate (n + 1) DelOut.ghost).tail =
          List.replicate n DelOut.ghost := by
        rw [List.replicate_succ]
        rfl
      have hdf : deleteFile fs name DelOut.ghost = (true, fs) := by
        simp [deleteFile, hg]
      rw [hhd, htl, hdf]
      simp only [fsHas_eq, hg, Option.isSome_some, ite_true, if_true]
      exact ih

theorem findBackupLoop_first_free (fs : Fs) (base : String) (k : Nat) (hk : k ≤ 9)
    (hall : ∀ j, j < k → fsHas fs (bakCandidate base j) = true)
    (hfree : fsHas fs (bakCandidate base k) = false) :
    findBackupLoop fs base 11 (base ++ ".bak") 1 = some (bakCandidate base k) := by
  interval_cases k
  · -- k = 0
    simp only [bakCandidate] at hfree
    simp [findBackupLoop, bakCandidate, hfree]
  · -- k = 1
    have hu0 := hall 0 (by omega)
    simp only [bakCandidate] at hu0
    simp only [bakCandidate] at hfree
    simp [findBackupLoop, bakCandidate, hu0, hfree]
  · -- k = 2
    have hu0 := hall 0 (by omega)
    simp only [bakCandidate] at hu0
    have hu1 := hall 1 (by omega)
    simp only [bakCandidate] at hu1
    simp only [bakCandidate] at hfree
    simp [findBackupLoop, bakCandidate, hu0, hu1, hfree]
  · -- k = 3
    have hu0 := hall 0 (by omega)
    simp only [bakCandidate] at hu0
    have hu1 := hall 1 (by omega)
    simp only [bakCandidate] at hu1
    have hu2 := hall 2 (by omega)
    simp only [bakCandidate] at hu2
    simp only [bakCandidate] at hfree
    simp [findBackupLoop, bakCandidate, hu0, hu1, hu2, hfree]
  · -- k = 4
    have hu0 := hall 0 (by omega)
    simp only [bakCandidate] at hu0
    have hu1 := hall 1 (by omega)
    simp only [bakCandidate] at hu1
    have hu2 := hall 2 (by omega)
    simp only [bakCandidate] at hu2
    have hu3 := hall 3 (by omega)
    simp only [bakCandidate] at hu3
    simp only [bakCandidate] at hfree
    simp [findBackupLoop, bakCandidate, hu0, hu1, hu2, hu3, hfree]
  · -- k = 5
    have hu0 := hall 0 (by omega)
    simp only [bakCandidate] at hu0
    have hu1 := hall 1 (by omega)
    simp only [bakCandidate] at hu1
    have hu2 := hall 2 (by omega)
    simp only [bakCandidate] at hu2
    have hu3 := hall 3 (by omega)
    simp only [bakCandidate] at hu3
    have hu4 := hall 4 (by omega)
    simp only [bakCandidate] at hu4
    simp only [bakCandidate] at hfree
    simp [findBackupLoop, bakCandidate, hu0, hu1, hu2, hu3, hu4, hfree]
  · -- k = 6
    have hu0 := hall 0 (by omega)
    simp only [bakCandidate] at hu0
    have hu1 := hall 1 (by omega)
    simp only [bakCandidate] at hu1
    have hu2 := hall 2 (by omega)
    simp only [bakCandidate] at hu2
    have hu3 := hall 3 (by omega)
    simp only [bakCandidate] at hu3
    have hu4 := hall 4 (by omega)
    simp only [bakCandidate] at hu4
    have hu5 := hall 5 (by omega)
    simp only [bakCandidate] at hu5
    simp only [bakCandidate] at hfree
    simp [findBackupLoop, bakCandidate, hu0, hu1, hu2, hu3, hu4, hu5, hfree]
  · -- k = 7
    have hu0 := hall 0 (by omega)
    simp only [bakCandidate] at hu0
    have hu1 := hall 1 (by omega)
    simp only [bakCandidate] at hu1
    have hu2 := hall 2 (by omega)
    simp only [bakCandidate] at hu2
    have hu3 := hall 3 (by omega)
    simp only [bakCandidate] at hu3
    have hu4 := hall 4 (by omega)
    simp only [bakCandidate] at hu4
    have hu5 := hall 5 (by omega)
    simp only [bakCandidate] at hu5
    have hu6 := hall 6 (by omega)
    simp only [bakCandidate] at hu6
    simp only [bakCandidate] at hfree
    simp [findBackupLoop, bakCandidate, hu0, hu1, hu2, hu3, hu4, hu5, hu6, hfree]
  · -- k = 8
    have hu0 := hall 0 (by omega)
    simp only [bakCandidate] at hu0
    have hu1 := hall 1 (by omega)
    simp only [bakCandidate] at hu1
    have hu2 := hall 2 (by omega)
    simp only [bakCandidate] at hu2
    have hu3 := hall 3 (by omega)
    simp only [bakCandidate] at hu3
    have hu4 := hall 4 (by omega)
    simp only [bakCandidate] at hu4
    have hu5 := hall 5 (by omega)
    simp only [bakCandidate] at hu5
    have hu6 := hall 6 (by omega)
    simp only [bakCandidate] at hu6
    have hu7 := hall 7 (by omega)
    simp only [bakCandidate] at hu7
    simp only [bakCandidate] at hfree
    simp [findBackupLoop, bakCandidate, hu0, hu1, hu2, hu3, hu4, hu5, hu6, hu7, hfree]
  · -- k = 9
    have hu0 := hall 0 (by omega)
    simp only [bakCandidate] at hu0
    have hu1 := hall 1 (by omega)
    simp only [bakCandidate] at hu1
    have hu2 := hall 2 (by omega)
    simp only [bakCandidate] at hu2
    have hu3 := hall 3 (by omega)
    simp only [bakCandidate] at hu3
    have hu4 := hall 4 (by omega)
    simp only [bakCandidate] at hu4
    have hu5 := hall 5 (by omega)
    simp only [bakCandidate] at hu5
    have hu6 := hall 6 (by omega)
    simp only [bakCandidate] at hu6
    have hu7 := hall 7 (by omega)
    simp only [bakCandidate] at hu7
    have hu8 := hall 8 (by omega)
    simp only [bakCandidate] at hu8
    simp only [bakCandidate] at hfree
    simp [findBackupLoop, bakCandidate, hu0, hu1, hu2, hu3, hu4, hu5, hu6, hu7, hu8, hfree]

/-- C5: when the delete-and-verify check fails five consecutive times
(each `DELE` reports success but the object persists), `safeDeleteFile`
renames the original to the first unused backup name in the sequence
`stem.bak`, `stem.bak1`, `stem.bak2`, …: afterwards the canonical path is
free and the backup holds the pre-attempt content; and the search is
capped — when `stem.bak` and `stem.bak1`…`stem.bak9` all exist, the
operation fails instead of looping, leaving the state unchanged. -/
theorem safeDeleteFile_backup_fallback (fs : Fs) (f P : String) (k : Nat)
    (hP : fsGet fs f = some P) (hk : k ≤ 9)
    (hall : ∀ j, j < k → fsHas fs (bakCandidate (baseNameOf f) j) = true)
    (hfree : fsHas fs (bakCandidate (baseNameOf f) k) = false) :
    (safeDeleteFile fs f (List.replicate 5 DelOut.ghost) [true]).1 = true ∧
    fsGet (safeDeleteFile fs f (List.replicate 5 DelOut.ghost) [true]).2 f = none ∧
    fsGet (safeDeleteFile fs f (List.replicate 5 DelOut.ghost) [true]).2
      (bakCandidate (baseNameOf f) k) = some P ∧
    safeDeleteFile capFs "data.csv" (List.replicate 5 DelOut.ghost) [true] =
      (false, capFs) := by
  have hA : safeDeleteAttempts f fs (List.replicate 5 DelOut.ghost) 5 = (false, fs) :=
    safeDeleteAttempts_ghost f fs (by rw [hP]; rfl) 5
  have hA1 : (safeDeleteAttempts f fs (List.replicate 5 DelOut.ghost) 5).1 = false := by
    rw [hA]
  have hA2 : (safeDeleteAttempts f fs (List.replicate 5 DelOut.ghost) 5).2 = fs := by
    rw [hA]
  have hc : ¬ (safeDeleteAttempts f fs (List.replicate 5 DelOut.ghost) 5).1 = true := by
    rw [hA1]
    decide
  have hbf : ¬ bakCandidate (baseNameOf f) k = f := by
    intro he
    rw [he] at hfree
    rw [fsHas_eq, hP] at hfree
    simp at hfree
  have hfind := findBackupLoop_first_free fs (baseNameOf f) k hk hall hfree
  have hrf : renameFile fs f (bakCandidate (baseNameOf f) k) true =
      (true, fsSet (fsDel fs f) (bakCandidate (baseNameOf f) k) P) := by
    unfold renameFile
    rw [hP]
    simp [fsRename, hP]
  have hfinal : safeDeleteFile fs f (List.replicate 5 DelOut.ghost) [true] =
      (true, fsSet (fsDel fs f) (bakCandidate (baseNameOf f) k) P) := by
    unfold safeDeleteFile
    rw [if_neg hc, hA2, hfind]
    show renameAttempts f (bakCandidate (baseNameOf f) k) fs [true] 3 = _
    unfold renameAttempts
    rw [show ([true] : List Bool).headD false = true from rfl, hrf]
    simp
  refine ⟨?_, ?_, ?_, rfl⟩
  · rw [hfinal]
  · rw [hfinal]
    show fsGet (fsSet (fsDel fs f) (bakCandidate (baseNameOf f) k) P) f = none
    rw [fsGet_fsSet, if_neg hbf, fsGet_fsDel, if_pos rfl]
  · rw [hfinal]
    show fsGet (fsSet (fsDel fs f) (bakCandidate (baseNameOf f) k) P)
      (bakCandidate (baseNameOf f) k) = some P
    rw [fsGet_fsSet, if_pos rfl]

/-- Witness for `safeDeleteFile_backup_fallback`: the stuck-delete
scenario with `data.bak` already taken falls back to `data.bak1`. -/
theorem safeDeleteFile_backup_fallback_witness :
    (safeDeleteFile [("data.csv", "OLD"), ("data.bak", "B")] "data.csv"
      (List.replicate 5 DelOut.ghost) [true]).1 = true ∧
    fsGet (safeDeleteFile [("data.csv", "OLD"), ("data.bak", "B")] "data.csv"
      (List.replicate 5 DelOut.ghost) [true]).2 "data.csv" = none ∧
    fsGet (safeDeleteFile [("data.csv", "OLD"), ("data.bak", "B")] "data.csv"
      (List.replicate 5 DelOut.ghost) [true]).2
      (bakCandidate (baseNameOf "data.csv") 1) = some "OLD" ∧
    safeDeleteFile capFs "data.csv" (List.replicate 5 DelOut.ghost) [true] =
      (false, capFs) :=
  safeDeleteFile_backup_fallback [("data.csv", "OLD"), ("data.bak", "B")]
    "data.csv" "OLD" 1 rfl (by omega)
    (fun j hj => by
      have hj0 : j = 0 := by omega
      subst hj0
      rfl)
    (by rfl)

/-! ## Claim theorems: the reply-level components -/

/-- C6 counterexample: with `MLST` and `SIZE` both rejected but the `SIZE`
rejection not containing "not allowed", `fileExists` answers `false`
after issuing only two probes, even though the third probe's reply bears a
definitive found status (`213`).  This falsifies "yields false only after
exhausting all three probes". -/
theorem fileExists_skips_mdtm :
    fileExistsTrace "550 no" "550 denied" "213 20240101000000" =
      (false, [Probe.mlst, Probe.sizeq]) ∧
    strStartsWith "213 20240101000000" "213" = true := by
  constructor
  · rfl
  · rfl

/-- C6 amended: `fileExists` tries `MLST`, then `SIZE`; the `MDTM` probe is
issued only when the `SIZE` reply starts with `550` and contains
"not allowed"; the result is found-by-`MLST` or found-by-`SIZE` or
(`SIZE` rejected as not-allowed and `MDTM` found). -/
theorem fileExists_fallback_chain (m s d : String) :
    (fileExistsTrace m s d).1 =
      (strStartsWith m "250" || strStartsWith s "213" ||
        (strStartsWith s "550" && strContains s "not allowed" && strStartsWith d "213")) ∧
    ((fileExistsTrace m s d).2.contains Probe.mdtm) =
      (!(strStartsWith m "250") && !(strStartsWith s "213") &&
        (strStartsWith s "550" && strContains s "not allowed")) := by
  unfold fileExistsTrace
  by_cases h1 : strStartsWith m "250"
  · simp [h1]
  · by_cases h2 : strStartsWith s "213"
    · simp [h1, h2]
    · by_cases h3 : (strStartsWith s "550" && strContains s "not allowed") = true
      · simp [h1, h2, h3, List.contains]
      · simp [h1, h2, h3, List.contains]

/-! ### Positional lemmas for `parsePassiveMode`

`parsePassiveMode` is split along the source's three stages: locating the
parentheses (`indexOf`, lines 57–64), collecting the first five comma
positions of the text between them (lines 67–73), and the five-comma
check with the two `toInt` conversions (lines 75–81).  The lemmas below
characterise each stage for every input shape. -/

/-- `List.findIdx?` misses when the predicate holds nowhere. -/
theorem findIdxOpt_none (p : Char → Bool) :
    ∀ (l : List Char) (i : Nat), (∀ x ∈ l, p x = false) → List.findIdx? p l i = none := by
  intro l
  induction l with
  | nil => intro i h; rfl
  | cons a as ih =>
    intro i h
    rw [List.findIdx?_cons, if_neg (by simp [h a (List.mem_cons_self a as)]),
      ih (i + 1) (fun x hx => h x (List.mem_cons_of_mem a hx))]

/-- `List.findIdx?` finds the first element satisfying the predicate. -/
theorem findIdxOpt_found (p : Char → Bool) (a : Char) (l2 : List Char) (hpa : p a = true) :
    ∀ (l1 : List Char) (i : Nat), (∀ x ∈ l1, p x = false) →
      List.findIdx? p (l1 ++ a :: l2) i = some (i + l1.length) := by
  intro l1
  induction l1 with
  | nil =>
    intro i h
    rw [List.nil_append, List.findIdx?_cons, if_pos hpa, List.length_nil, Nat.add_zero]
  | cons b bs ih =>
    intro i h
    rw [List.cons_append, List.findIdx?_cons,
      if_neg (by simp [h b (List.mem_cons_self b bs)]),
      ih (i + 1) (fun x hx => h x (List.mem_cons_of_mem b hx)), List.length_cons]
    congr 1
    omega

/-- `idxOfFrom` misses when the character is absent from position `start` on. -/
theorem idxOfFrom_none_after (l : List Char) (c : Char) (start : Nat)
    (h : ∀ x ∈ l.drop start, ¬ x = c) : idxOfFrom l c start = none := by
  have hnone : (l.drop start).findIdx? (· = c) = none :=
    findIdxOpt_none _ _ _ (fun x hx => by simp [h x hx])
  simp only [idxOfFrom, hnone]

/-- `idxOfFrom` from 0 finds the first occurrence. -/
theorem idxOfFrom_first (l1 : List Char) (c : Char) (l2 : List Char)
    (h : ∀ x ∈ l1, ¬ x = c) : idxOfFrom (l1 ++ c :: l2) c 0 = some l1.length := by
  have hfound : ((l1 ++ c :: l2).drop 0).findIdx? (· = c) = some (0 + l1.length) := by
    rw [List.drop_zero]
    exact findIdxOpt_found _ c l2 (by simp) l1 0 (fun x hx => by simp [h x hx])
  simp only [idxOfFrom, hfound, Nat.zero_add]

/-- `idxOfFrom` started at the opening parenthesis finds the closing one. -/
theorem idxOfFrom_close (P M Q : List Char) (a c : Char) (hne : ¬ a = c)
    (hM : ∀ x ∈ M, ¬ x = c) :
    idxOfFrom (P ++ a :: (M ++ c :: Q)) c P.length = some (P.length + (M.length + 1)) := by
  have hdrop : (P ++ a :: (M ++ c :: Q)).drop P.length = a :: (M ++ c :: Q) :=
    List.drop_left P _
  have hfound : ((P ++ a :: (M ++ c :: Q)).drop P.length).findIdx? (· = c) =
      some (0 + (a :: M).length) := by
    rw [hdrop, show a :: (M ++ c :: Q) = (a :: M) ++ c :: Q from by simp]
    exact findIdxOpt_found _ c Q (by simp) (a :: M) 0
      (fun x hx => by
        rcases List.mem_cons.mp hx with h1 | h1
        · subst h1
          simp [hne]
        · simp [hM x h1])
  simp only [idxOfFrom, hfound, Nat.zero_add, List.length_cons]

theorem drop_append_exact {α : Type} (l1 l2 : List α) (n : Nat) (h : n = l1.length) :
    (l1 ++ l2).drop n = l2 := by
  subst h
  exact List.drop_left l1 l2

theorem take_append_exact {α : Type} (l1 l2 : List α) (n : Nat) (h : n = l1.length) :
    (l1 ++ l2).take n = l1 := by
  subst h
  exact List.take_left l1 l2

theorem commaIdx_cons (c : Char) (cs : List Char) :
    commaIdx (c :: cs) = if c = ',' then 0 :: (commaIdx cs).map (· + 1)
      else (commaIdx cs).map (· + 1) := rfl

theorem commaIdx_nil_of (l : List Char) (h : ∀ x ∈ l, ¬ x = ',') : commaIdx l = [] := by
  induction l with
  | nil => rfl
  | cons c cs ih =>
    rw [commaIdx_cons, if_neg (h c (List.mem_cons_self c cs)),
      ih (fun x hx => h x (List.mem_cons_of_mem c hx)), List.map_nil]

theorem commaIdx_append (l1 l2 : List Char) :
    commaIdx (l1 ++ l2) = commaIdx l1 ++ (commaIdx l2).map (· + l1.length) := by
  induction l1 with
  | nil => simp [commaIdx]
  | cons c cs ih =>
    have hmap : (commaIdx l2).map ((· + 1) ∘ (· + cs.length)) =
        (commaIdx l2).map (· + (c :: cs).length) :=
      List.map_congr_left (fun a _ => by simp only [Function.comp, List.length_cons]; omega)
    rw [List.cons_append, commaIdx_cons c (cs ++ l2), commaIdx_cons c cs]
    by_cases hc : c = ','
    · rw [if_pos hc, if_pos hc, ih, List.map_append, List.map_map, hmap, List.cons_append]
    · rw [if_neg hc, if_neg hc, ih, List.map_append, List.map_map, hmap]

theorem commaIdx_field_cons (g t : List Char) (h : ∀ x ∈ g, ¬ x = ',') :
    commaIdx (g ++ ',' :: t) = g.length :: (commaIdx t).map (· + (g.length + 1)) := by
  rw [commaIdx_append, commaIdx_nil_of g h, commaIdx_cons, if_pos rfl, List.nil_append,
    List.map_cons, List.map_map]
  refine congrArg₂ List.cons (Nat.zero_add g.length) ?_
  exact List.map_congr_left (fun a _ => by simp only [Function.comp]; omega)

theorem commaIdx_length (l : List Char) : (commaIdx l).length = l.count ',' := by
  induction l with
  | nil => rfl
  | cons c cs ih =>
    by_cases hc : c = ','
    · subst hc
      simp [commaIdx_cons, ih]
    · have hcc : ¬ ',' = c := fun h' => hc h'.symm
      simp [commaIdx_cons, ih, hc, List.count_cons, hcc]

/-- The index-collecting loop of `parsePassiveMode` collects exactly the
comma positions, in order. -/
theorem range_filter_comma (l : List Char) :
    (List.range l.length).filter (fun i => l.getD i ' ' = ',') = commaIdx l := by
  induction l with
  | nil => rfl
  | cons c cs ih =>
    have hsucc : Nat.succ = (fun x : Nat => x + 1) := by
      funext n
      rfl
    have hcomp : ((fun i => decide ((c :: cs).getD i ' ' = ',')) ∘ Nat.succ) =
        (fun i => decide (cs.getD i ' ' = ',')) := by
      funext i
      show decide ((c :: cs).getD (i + 1) ' ' = ',') = decide (cs.getD i ' ' = ',')
      rw [List.getD_cons_succ]
    rw [List.length_cons, List.range_succ_eq_map, List.filter_cons, List.filter_map,
      hcomp, ih, commaIdx_cons, List.getD_cons_zero, hsucc]
    by_cases hc : c = ','
    · rw [if_pos (by simp [hc]), if_pos hc]
    · rw [if_neg (by simp [hc]), if_neg hc]

theorem take_five {α : Type} (a b c d e : α) (T : List α) :
    (a :: b :: c :: d :: e :: T).take 5 = [a, b, c, d, e] := rfl

theorem length_five {α : Type} (a b c d e : α) : ([a, b, c, d, e] : List α).length = 5 := rfl

theorem getD_five_three {α : Type} (a b c d e : α) (dflt : α) :
    ([a, b, c, d, e] : List α).getD 3 dflt = d := rfl

theorem getD_five_four {α : Type} (a b c d e : α) (dflt : α) :
    ([a, b, c, d, e] : List α).getD 4 dflt = e := rfl

/-- Bridge: once both parentheses are located, `parsePassiveMode` is
`parseGroup` on the text between them. -/
theorem parsePassiveMode_eq_parseGroup (s : String) (start stop : Nat)
    (h1 : idxOfFrom s.data '(' 0 = some start)
    (h2 : idxOfFrom s.data ')' start = some stop) :
    parsePassiveMode s = parseGroup ((s.data.drop (start + 1)).take (stop - (start + 1))) := by
  simp only [parsePassiveMode, parseGroup, h1, h2]

/-- Line 58: a reply without `'('` is rejected. -/
theorem parsePassiveMode_none_noOpen (s : String)
    (h1 : idxOfFrom s.data '(' 0 = none) : parsePassiveMode s = none := by
  simp only [parsePassiveMode, h1]

/-- Line 63: a reply whose group is never closed is rejected. -/
theorem parsePassiveMode_none_noClose (s : String) (start : Nat)
    (h1 : idxOfFrom s.data '(' 0 = some start)
    (h2 : idxOfFrom s.data ')' start = none) : parsePassiveMode s = none := by
  simp only [parsePassiveMode, h1, h2]

/-- Line 75: a group with fewer than five commas is rejected. -/
theorem parseGroup_short (g : List Char) (h : g.count ',' < 5) : parseGroup g = none := by
  have hlen :
      ¬ (((List.range g.length).filter (fun i => g.getD i ' ' = ',')).take 5).length = 5 := by
    rw [range_filter_comma, List.length_take, commaIdx_length]
    omega
  simp only [parseGroup]
  rw [if_neg hlen]

/-- Lines 76–81: a group of five comma-free fields followed by a fifth comma
and any remainder parses to `toInt(field₅) * 256 + toInt(remainder)`. -/
theorem parseGroup_success (g1 g2 g3 g4 g5 tl : List Char)
    (hc1 : ∀ x ∈ g1, ¬ x = ',') (hc2 : ∀ x ∈ g2, ¬ x = ',')
    (hc3 : ∀ x ∈ g3, ¬ x = ',') (hc4 : ∀ x ∈ g4, ¬ x = ',')
    (hc5 : ∀ x ∈ g5, ¬ x = ',') :
    parseGroup (g1 ++ ',' :: (g2 ++ ',' :: (g3 ++ ',' :: (g4 ++ ',' :: (g5 ++ ',' :: tl))))) =
      some (toIntArd (String.mk g5) * 256 + toIntArd (String.mk tl)) := by
  have hTake :
      (commaIdx (g1 ++ ',' :: (g2 ++ ',' :: (g3 ++ ',' ::
          (g4 ++ ',' :: (g5 ++ ',' :: tl)))))).take 5 =
        [g1.length,
         g1.length + g2.length + 1,
         g1.length + g2.length + g3.length + 2,
         g1.length + g2.length + g3.length + g4.length + 3,
         g1.length + g2.length + g3.length + g4.length + g5.length + 4] := by
    rw [commaIdx_field_cons g1 _ hc1, commaIdx_field_cons g2 _ hc2, commaIdx_field_cons g3 _ hc3,
      commaIdx_field_cons g4 _ hc4, commaIdx_field_cons g5 _ hc5]
    simp only [List.map_cons, List.map_map, Function.comp]
    rw [take_five]
    refine congrArg₂ List.cons rfl (congrArg₂ List.cons (by omega) (congrArg₂ List.cons (by omega)
      (congrArg₂ List.cons (by omega) (congrArg₂ List.cons (by omega) rfl))))
  have hre1 : g1 ++ ',' :: (g2 ++ ',' :: (g3 ++ ',' :: (g4 ++ ',' :: (g5 ++ ',' :: tl)))) =
      (g1 ++ ',' :: (g2 ++ ',' :: (g3 ++ ',' :: (g4 ++ [','])))) ++ (g5 ++ ',' :: tl) := by
    simp
  have hlen1 : g1.length + g2.length + g3.length + g4.length + 3 + 1 =
      (g1 ++ ',' :: (g2 ++ ',' :: (g3 ++ ',' :: (g4 ++ [','])))).length := by
    simp only [List.length_append, List.length_cons, List.length_nil]
    omega
  have hre2 : g1 ++ ',' :: (g2 ++ ',' :: (g3 ++ ',' :: (g4 ++ ',' :: (g5 ++ ',' :: tl)))) =
      (g1 ++ ',' :: (g2 ++ ',' :: (g3 ++ ',' :: (g4 ++ ',' :: (g5 ++ [',']))))) ++ tl := by
    simp
  have hlen2 : g1.length + g2.length + g3.length + g4.length + g5.length + 4 + 1 =
      (g1 ++ ',' :: (g2 ++ ',' :: (g3 ++ ',' :: (g4 ++ ',' :: (g5 ++ [',']))))).length := by
    simp only [List.length_append, List.length_cons, List.length_nil]
    omega
  have hs1 : ((g1 ++ ',' :: (g2 ++ ',' :: (g3 ++ ',' :: (g4 ++ ',' :: (g5 ++ ',' :: tl))))).drop
        (g1.length + g2.length + g3.length + g4.length + 3 + 1)).take
        (g1.length + g2.length + g3.length + g4.length + g5.length + 4 -
          (g1.length + g2.length + g3.length + g4.length + 3 + 1)) = g5 := by
    rw [hre1,
      drop_append_exact (g1 ++ ',' :: (g2 ++ ',' :: (g3 ++ ',' :: (g4 ++ [','])))) _ _ hlen1,
      show g1.length + g2.length + g3.length + g4.length + g5.length + 4 -
        (g1.length + g2.length + g3.length + g4.length + 3 + 1) = g5.length from by omega]
    exact take_append_exact g5 (',' :: tl) g5.length rfl
  have hs2 : (g1 ++ ',' :: (g2 ++ ',' :: (g3 ++ ',' :: (g4 ++ ',' :: (g5 ++ ',' :: tl))))).drop
      (g1.length + g2.length + g3.length + g4.length + g5.length + 4 + 1) = tl := by
    rw [hre2]
    exact drop_append_exact _ _ _ hlen2
  simp only [parseGroup]
  rw [range_filter_comma, hTake, if_pos (length_five _ _ _ _ _), getD_five_three,
    getD_five_four, hs1, hs2]

/-- A group shaped like five fields and a remainder contains no `')'` when
its pieces do not. -/
theorem group_no_close (f1 f2 f3 f4 f5 tl : List Char)
    (h1 : ∀ x ∈ f1, ¬ x = ')') (h2 : ∀ x ∈ f2, ¬ x = ')') (h3 : ∀ x ∈ f3, ¬ x = ')')
    (h4 : ∀ x ∈ f4, ¬ x = ')') (h5 : ∀ x ∈ f5, ¬ x = ')') (h6 : ∀ x ∈ tl, ¬ x = ')') :
    ∀ x ∈ f1 ++ ',' :: (f2 ++ ',' :: (f3 ++ ',' :: (f4 ++ ',' :: (f5 ++ ',' :: tl)))),
      ¬ x = ')' := by
  intro x hx
  simp only [List.mem_append, List.mem_cons] at hx
  rcases hx with h | h | h | h | h | h | h | h | h | h | h
  · exact h1 x h
  · subst h; decide
  · exact h2 x h
  · subst h; decide
  · exact h3 x h
  · subst h; decide
  · exact h4 x h
  · subst h; decide
  · exact h5 x h
  · subst h; decide
  · exact h6 x h

/-- `parsePassiveMode` on any string whose data splits as
`pre ++ '(' ++ group ++ ')' ++ post` (with the marked parentheses the first
ones the two `indexOf` scans hit) is `parseGroup` on the group. -/
theorem parsePassiveMode_group_eq (s pre : String) (M : List Char) (post : String)
    (hdata : s.data = pre.data ++ '(' :: (M ++ ')' :: post.data))
    (h1 : ∀ x ∈ pre.data, ¬ x = '(') (h2 : ∀ x ∈ M, ¬ x = ')') :
    parsePassiveMode s = parseGroup M := by
  have hfound : idxOfFrom s.data '(' 0 = some pre.data.length := by
    rw [hdata]
    exact idxOfFrom_first pre.data '(' _ h1
  have hclose : idxOfFrom s.data ')' pre.data.length =
      some (pre.data.length + (M.length + 1)) := by
    rw [hdata]
    exact idxOfFrom_close pre.data M post.data '(' ')' (by decide) h2
  rw [parsePassiveMode_eq_parseGroup s pre.data.length (pre.data.length + (M.length + 1))
    hfound hclose, hdata,
    show pre.data.length + (M.length + 1) - (pre.data.length + 1) = M.length from by omega,
    show pre.data ++ '(' :: (M ++ ')' :: post.data) =
      (pre.data ++ ['(']) ++ (M ++ ')' :: post.data) from by simp,
    drop_append_exact (pre.data ++ ['(']) (M ++ ')' :: post.data) (pre.data.length + 1)
      (by simp [List.length_append]),
    take_append_exact M (')' :: post.data) M.length rfl]

/-- C7 counterexample: `parsePassiveMode` performs no range check on the
computed port — the tuple `(0,0,0,0,0,0)` parses successfully to port `0`,
which lies outside 1–65535.  This falsifies "fails if the computed port
falls outside 1–65535". -/
theorem parsePassiveMode_accepts_port_zero :
    parsePassiveMode "(0,0,0,0,0,0)" = some 0 ∧ (0 : Int) < 1 := by
  constructor
  · rfl
  · decide

/-- C7 amended, in full generality: for **every** reply string,
`parsePassiveMode` returns `none` when no `'('` occurs, when no `')'`
occurs at or after the first `'('`, and when the parenthesized group holds
fewer than five commas; and for **every** group shaped as five comma-free
fields, a fifth comma and an arbitrary remainder (so six *or more*
comma-separated tokens) it returns `toInt(field₅) * 256 + toInt(remainder)`
— the remainder's leading integer.  In particular
`(192,168,1,50,20,40)` yields port `20 * 256 + 40 = 5160` and the
seven-token group `(1,2,3,4,5,20,40)` yields `5 * 256 + 20 = 1300`.  No
range check is performed on the result (see
`parsePassiveMode_accepts_port_zero`). -/
theorem parsePassiveMode_general :
    (∀ s : String, (∀ x ∈ s.data, ¬ x = '(') → parsePassiveMode s = none) ∧
    (∀ pre mid : String, (∀ x ∈ pre.data, ¬ x = '(') → (∀ x ∈ mid.data, ¬ x = ')') →
      parsePassiveMode (pre ++ "(" ++ mid) = none) ∧
    (∀ pre mid post : String, (∀ x ∈ pre.data, ¬ x = '(') → (∀ x ∈ mid.data, ¬ x = ')') →
      mid.data.count ',' < 5 →
      parsePassiveMode (pre ++ "(" ++ mid ++ ")" ++ post) = none) ∧
    (∀ pre f1 f2 f3 f4 f5 rest post : String,
      (∀ x ∈ pre.data, ¬ x = '(') →
      (∀ x ∈ f1.data, ¬ x = ',' ∧ ¬ x = ')') →
      (∀ x ∈ f2.data, ¬ x = ',' ∧ ¬ x = ')') →
      (∀ x ∈ f3.data, ¬ x = ',' ∧ ¬ x = ')') →
      (∀ x ∈ f4.data, ¬ x = ',' ∧ ¬ x = ')') →
      (∀ x ∈ f5.data, ¬ x = ',' ∧ ¬ x = ')') →
      (∀ x ∈ rest.data, ¬ x = ')') →
      parsePassiveMode (pre ++ "(" ++ f1 ++ "," ++ f2 ++ "," ++ f3 ++ "," ++ f4 ++ "," ++ f5 ++
          "," ++ rest ++ ")" ++ post) =
        some (toIntArd f5 * 256 + toIntArd rest)) ∧
    parsePassiveMode "227 Entering Passive Mode (192,168,1,50,20,40)." = some 5160 ∧
    parsePassiveMode "(1,2,3,4,5,20,40)" = some 1300 := by
  refine ⟨?_, ?_, ?_, ?_, rfl, rfl⟩
  · intro s h
    exact parsePassiveMode_none_noOpen s
      (idxOfFrom_none_after s.data '(' 0 (fun x hx => h x (List.mem_of_mem_drop hx)))
  · intro pre mid hpre hmid
    have hdata : (pre ++ "(" ++ mid).data = pre.data ++ '(' :: mid.data := by simp
    have hfound : idxOfFrom (pre ++ "(" ++ mid).data '(' 0 = some pre.data.length := by
      rw [hdata]
      exact idxOfFrom_first pre.data '(' mid.data hpre
    have hclose : idxOfFrom (pre ++ "(" ++ mid).data ')' pre.data.length = none := by
      rw [hdata]
      refine idxOfFrom_none_after _ ')' pre.data.length (fun x hx => ?_)
      rw [List.drop_left] at hx
      rcases List.mem_cons.mp hx with h | h
      · subst h
        decide
      · exact hmid x h
    exact parsePassiveMode_none_noClose _ pre.data.length hfound hclose
  · intro pre mid post hpre hmid hcount
    have hdata : (pre ++ "(" ++ mid ++ ")" ++ post).data =
        pre.data ++ '(' :: (mid.data ++ ')' :: post.data) := by simp
    rw [parsePassiveMode_group_eq (pre ++ "(" ++ mid ++ ")" ++ post) pre mid.data post
      hdata hpre hmid]
    exact parseGroup_short mid.data hcount
  · intro pre f1 f2 f3 f4 f5 rest post hpre h1 h2 h3 h4 h5 h6
    have hdata : (pre ++ "(" ++ f1 ++ "," ++ f2 ++ "," ++ f3 ++ "," ++ f4 ++ "," ++ f5 ++
        "," ++ rest ++ ")" ++ post).data =
        pre.data ++ '(' :: ((f1.data ++ ',' :: (f2.data ++ ',' :: (f3.data ++ ',' ::
          (f4.data ++ ',' :: (f5.data ++ ',' :: rest.data))))) ++ ')' :: post.data) := by
      simp
    rw [parsePassiveMode_group_eq _ pre
      (f1.data ++ ',' :: (f2.data ++ ',' :: (f3.data ++ ',' ::
        (f4.data ++ ',' :: (f5.data ++ ',' :: rest.data))))) post hdata hpre
      (group_no_close f1.data f2.data f3.data f4.data f5.data rest.data
        (fun x hx => (h1 x hx).2) (fun x hx => (h2 x hx).2) (fun x hx => (h3 x hx).2)
        (fun x hx => (h4 x hx).2) (fun x hx => (h5 x hx).2) h6)]
    exact parseGroup_success f1.data f2.data f3.data f4.data f5.data rest.data
      (fun x hx => (h1 x hx).1) (fun x hx => (h2 x hx).1) (fun x hx => (h3 x hx).1)
      (fun x hx => (h4 x hx).1) (fun x hx => (h5 x hx).1)

/-- Witness: the success branch of `parsePassiveMode_general` applied to the
concrete reply `227 Entering Passive Mode (192,168,1,50,20,40).`. -/
theorem parsePassiveMode_general_witness :
    parsePassiveMode ("227 Entering Passive Mode " ++ "(" ++ "192" ++ "," ++ "168" ++ "," ++
        "1" ++ "," ++ "50" ++ "," ++ "20" ++ "," ++ "40" ++ ")" ++ ".") =
      some (toIntArd "20" * 256 + toIntArd "40") :=
  parsePassiveMode_general.2.2.2.1 "227 Entering Passive Mode " "192" "168" "1" "50" "20" "40" "."
    (by decide) (by decide) (by decide) (by decide) (by decide) (by decide) (by decide)

/-- C8 counterexample: when no final reply arrives after the upload
(`finalResponse` stays empty), `createFile` falls back to an existence
probe and reports success when the probe finds the file — the missing
final reply is not treated as a non-success.  This falsifies "a missing
final reply is treated as unconfirmed: the operation does not report
success". -/
theorem createFile_missing_reply_success :
    createFileFinal "" true = true ∧ ("" : String).data.length = 0 := by
  constructor
  · rfl
  · rfl

/-- C8 amended: a non-empty final reply outside `226`/`250` is reported as
failure; an empty (missing) final reply makes `createFile` report success
exactly when the follow-up existence probe finds the file; `226`/`250`
reports success. -/
theorem createFileFinal_behavior (r : String) (p : Bool) :
    ((strStartsWith r "226" || strStartsWith r "250") = false →
      ¬ r.data.length = 0 → createFileFinal r p = false) ∧
    createFileFinal "" p = p ∧
    ((strStartsWith r "226" || strStartsWith r "250") = true →
      createFileFinal r p = true) := by
  refine ⟨?_, ?_, ?_⟩
  · intro h1 h2
    unfold createFileFinal
    rw [if_neg (by simp [h1]), if_neg h2]
  · cases p <;> rfl
  · intro h1
    simp [createFileFinal, h1]

/-- Witness for `createFileFinal_behavior` at a rejected reply and at a
missing reply. -/
theorem createFileFinal_behavior_witness :
    createFileFinal "550 err" false = false ∧ createFileFinal "" false = false :=
  ⟨(createFileFinal_behavior "550 err" false).1 (by rfl) (by decide),
   (createFileFinal_behavior "" false).2.1⟩

/-- C9: `fileExists` returns a bare boolean and maps every reply pattern
without a definitive found status — including entirely empty replies, the
shape a timed-out `readResponse` produces — to `false`, the same answer a
genuinely absent object gets; there is no error outcome for the callers
(the delete verification and the guard re-probe) to distinguish. -/
theorem fileExists_conflates_failure_with_absence (m s d : String)
    (hm : strStartsWith m "250" = false)
    (hs : strStartsWith s "213" = false)
    (hd : strStartsWith d "213" = false) :
    fileExists m s d = false ∧ fileExists "" "" "" = false := by
  constructor
  · unfold fileExists fileExistsTrace
    by_cases h3 : (strStartsWith s "550" && strContains s "not allowed") = true
    · simp [hm, hs, h3, hd]
    · simp [hm, hs, h3]
  · rfl

/-- Witness for `fileExists_conflates_failure_with_absence`: a server that
answers every probe with a silent (empty) reply is indistinguishable from
an absent object. -/
theorem fileExists_conflates_witness :
    fileExists "" "" "" = false ∧ fileExists "" "" "" = false :=
  fileExists_conflates_failure_with_absence "" "" "" (by rfl) (by rfl) (by rfl)

/-- C10: every data connection target uses the configured server host —
the host component of a successful `dataConnectTarget` is always the
configured `server`, and changing the four host octets of the passive
reply does not change the connection target at all; only the two port
octets matter (`(…,20,40)` always gives port 5160). -/
theorem dataConnect_uses_configured_host :
    (∀ srv resp t, dataConnectTarget srv resp = some t → t.1 = srv) ∧
    dataConnectTarget "cfg" "(10,20,30,40,20,40)" =
      dataConnectTarget "cfg" "(99,88,77,66,20,40)" ∧
    dataConnectTarget "cfg" "(10,20,30,40,20,40)" = some ("cfg", 5160) := by
  refine ⟨?_, rfl, rfl⟩
  intro srv resp t h
  unfold dataConnectTarget at h
  cases hp : parsePassiveMode resp with
  | none => simp [hp] at h
  | some v =>
    simp [hp] at h
    rw [← h]

/-- Witness for `dataConnect_uses_configured_host`: at a concrete reply the
host component is the configured one. -/
theorem dataConnect_uses_configured_host_witness :
    (("cfg2", (5160 : Int)) : String × Int).1 = "cfg2" :=
  dataConnect_uses_configured_host.1 "cfg2" "(1,2,3,4,20,40)" ("cfg2", 5160) rfl

end RoutineTimer
